import Mathlib

/-!
# Verification of the scrcpy WebSocket bridge (`scrcpy_ws_bridge.py`)

Shallow embedding of the bridge's pure logic:

* the incremental H.264 NAL framer (`_extract_nal_units` and the buffer
  handling of `_video_stream_loop`),
* the NAL-type classifiers (`_get_nal_type`, `_is_sps`, `_is_pps`,
  `_is_keyframe`),
* the per-viewer touch state machine of `_send_touch` (tap/swipe
  classification, stale-state timeout, coordinate validation),
* the broadcast hub (`_handle_client` join replay and the fan-out of
  `_video_stream_loop`),
* the control-message router (`_handle_control_message`) together with the
  exceptions Python raises on ill-typed fields,
* the chat lock discipline of `_handle_chat_message` / `invoke_agent`.

Bytes are modelled as `Nat` (the code only compares them with 0/1 and masks
with `0x1F`), buffers as `List Nat`, normalized coordinates and times as `ℚ`
(exact arithmetic idealizing Python floats; square-root comparisons are kept
in squared form inside definitions and proven equal to the `sqrt` form in the
theorems).
-/

namespace ScrcpyBridge

/-! ## NAL start-code scan of `_extract_nal_units`

The Python loop

```
i = 0
while i < len(buf) - 3:
    if buf[i:i+4] == b'\x00\x00\x00\x01': start_positions.append((i, 4)); i += 4
    elif buf[i:i+3] == b'\x00\x00\x01':   start_positions.append((i, 3)); i += 3
    else:                                 i += 1
```

is rendered with an explicit fuel argument (`fuel = buf.length` bounds the
iteration count, each iteration advances `i` by at least one); the lemmas
`scanStarts_stop`, `scanStarts_fire4`, `scanStarts_fire3` and
`scanStarts_step` below recover exactly the loop's step semantics. -/

/-- Fueled body of the start-code scan.  Returns the `(position, length)`
pairs appended to `start_positions`. -/
def scanGo : Nat → List Nat → Nat → List (Nat × Nat)
  | 0, _, _ => []
  | fuel + 1, l, i =>
    if i < l.length - 3 then
      if (l.drop i).take 4 = [0, 0, 0, 1] then (i, 4) :: scanGo fuel l (i + 4)
      else if (l.drop i).take 3 = [0, 0, 1] then (i, 3) :: scanGo fuel l (i + 3)
      else scanGo fuel l (i + 1)
    else []

/-- The `start_positions` list computed by `_extract_nal_units` when the scan
starts at index `i` (the code always starts at `i = 0`). -/
def scanStarts (l : List Nat) (i : Nat) : List (Nat × Nat) :=
  scanGo l.length l i

/-- Fueled computation of the index at which the scan loop exits. -/
def stopGo : Nat → List Nat → Nat → Nat
  | 0, _, i => i
  | fuel + 1, l, i =>
    if i < l.length - 3 then
      if (l.drop i).take 4 = [0, 0, 0, 1] then stopGo fuel l (i + 4)
      else if (l.drop i).take 3 = [0, 0, 1] then stopGo fuel l (i + 3)
      else stopGo fuel l (i + 1)
    else i

/-- Index at which the scan loop of `_extract_nal_units` exits. -/
def stopPos (l : List Nat) (i : Nat) : Nat :=
  stopGo l.length l i

/-- Fueled greedy scan over the WHOLE byte sequence (no `len - 3`
truncation): this is the claim's notion of "the start markers contained in
the byte sequence".  A 3-byte start code sitting in the last three bytes
counts here, while the code's loop never examines those positions. -/
def scanFullGo : Nat → List Nat → Nat → List (Nat × Nat)
  | 0, _, _ => []
  | fuel + 1, l, i =>
    if i < l.length then
      if (l.drop i).take 4 = [0, 0, 0, 1] then (i, 4) :: scanFullGo fuel l (i + 4)
      else if (l.drop i).take 3 = [0, 0, 1] then (i, 3) :: scanFullGo fuel l (i + 3)
      else scanFullGo fuel l (i + 1)
    else []

/-- All greedy (leftmost, longest-first, non-overlapping) start markers of a
byte sequence, starting at index `i`. -/
def scanFullStarts (l : List Nat) (i : Nat) : List (Nat × Nat) :=
  scanFullGo l.length l i

/-! Fuel irrelevance: any fuel of at least the number of remaining loop
iterations computes the same result. -/

theorem scanGo_fuel_irrel :
    ∀ (k₁ k₂ : Nat) (l : List Nat) (i : Nat),
      l.length - 3 ≤ i + k₁ → l.length - 3 ≤ i + k₂ →
      scanGo k₁ l i = scanGo k₂ l i := by
  intro k₁
  induction k₁ with
  | zero =>
    intro k₂ l i h₁ h₂
    have hstop : ¬ i < l.length - 3 := by omega
    cases k₂ with
    | zero => rfl
    | succ m => simp only [scanGo, if_neg hstop]
  | succ k ih =>
    intro k₂ l i h₁ h₂
    by_cases hg : i < l.length - 3
    · cases k₂ with
      | zero => omega
      | succ m =>
        simp only [scanGo, if_pos hg]
        by_cases h4 : (l.drop i).take 4 = [0, 0, 0, 1]
        · rw [if_pos h4, if_pos h4, ih m l (i + 4) (by omega) (by omega)]
        · rw [if_neg h4, if_neg h4]
          by_cases h3 : (l.drop i).take 3 = [0, 0, 1]
          · rw [if_pos h3, if_pos h3, ih m l (i + 3) (by omega) (by omega)]
          · rw [if_neg h3, if_neg h3, ih m l (i + 1) (by omega) (by omega)]
    · cases k₂ with
      | zero => simp only [scanGo, if_neg hg]
      | succ m => simp only [scanGo, if_neg hg]

theorem stopGo_fuel_irrel :
    ∀ (k₁ k₂ : Nat) (l : List Nat) (i : Nat),
      l.length - 3 ≤ i + k₁ → l.length - 3 ≤ i + k₂ →
      stopGo k₁ l i = stopGo k₂ l i := by
  intro k₁
  induction k₁ with
  | zero =>
    intro k₂ l i h₁ h₂
    have hstop : ¬ i < l.length - 3 := by omega
    cases k₂ with
    | zero => rfl
    | succ m => simp only [stopGo, if_neg hstop]
  | succ k ih =>
    intro k₂ l i h₁ h₂
    by_cases hg : i < l.length - 3
    · cases k₂ with
      | zero => omega
      | succ m =>
        simp only [stopGo, if_pos hg]
        by_cases h4 : (l.drop i).take 4 = [0, 0, 0, 1]
        · rw [if_pos h4, if_pos h4, ih m l (i + 4) (by omega) (by omega)]
        · rw [if_neg h4, if_neg h4]
          by_cases h3 : (l.drop i).take 3 = [0, 0, 1]
          · rw [if_pos h3, if_pos h3, ih m l (i + 3) (by omega) (by omega)]
          · rw [if_neg h3, if_neg h3, ih m l (i + 1) (by omega) (by omega)]
    · cases k₂ with
      | zero => simp only [stopGo, if_neg hg]
      | succ m => simp only [stopGo, if_neg hg]

theorem scanFullGo_fuel_irrel :
    ∀ (k₁ k₂ : Nat) (l : List Nat) (i : Nat),
      l.length ≤ i + k₁ → l.length ≤ i + k₂ →
      scanFullGo k₁ l i = scanFullGo k₂ l i := by
  intro k₁
  induction k₁ with
  | zero =>
    intro k₂ l i h₁ h₂
    have hstop : ¬ i < l.length := by omega
    cases k₂ with
    | zero => rfl
    | succ m => simp only [scanFullGo, if_neg hstop]
  | succ k ih =>
    intro k₂ l i h₁ h₂
    by_cases hg : i < l.length
    · cases k₂ with
      | zero => omega
      | succ m =>
        simp only [scanFullGo, if_pos hg]
        by_cases h4 : (l.drop i).take 4 = [0, 0, 0, 1]
        · rw [if_pos h4, if_pos h4, ih m l (i + 4) (by omega) (by omega)]
        · rw [if_neg h4, if_neg h4]
          by_cases h3 : (l.drop i).take 3 = [0, 0, 1]
          · rw [if_pos h3, if_pos h3, ih m l (i + 3) (by omega) (by omega)]
          · rw [if_neg h3, if_neg h3, ih m l (i + 1) (by omega) (by omega)]
    · cases k₂ with
      | zero => simp only [scanFullGo, if_neg hg]
      | succ m => simp only [scanFullGo, if_neg hg]

/-! Unfolding lemmas recovering the loop-step semantics. -/

theorem scanStarts_stop {l : List Nat} {i : Nat} (h : ¬ i < l.length - 3) :
    scanStarts l i = [] := by
  unfold scanStarts
  cases hl : l.length with
  | zero => rfl
  | succ m => rw [← hl]; rw [hl]; simp only [scanGo, ← hl, if_neg h]

theorem scanStarts_fire4 {l : List Nat} {i : Nat} (h : i < l.length - 3)
    (h4 : (l.drop i).take 4 = [0, 0, 0, 1]) :
    scanStarts l i = (i, 4) :: scanStarts l (i + 4) := by
  unfold scanStarts
  cases hl : l.length with
  | zero => omega
  | succ m =>
    rw [← hl]
    conv_lhs => rw [hl]
    simp only [scanGo, ← hl, if_pos h, if_pos h4]
    rw [scanGo_fuel_irrel m l.length l (i + 4) (by omega) (by omega)]

theorem scanStarts_fire3 {l : List Nat} {i : Nat} (h : i < l.length - 3)
    (h4 : ¬ (l.drop i).take 4 = [0, 0, 0, 1])
    (h3 : (l.drop i).take 3 = [0, 0, 1]) :
    scanStarts l i = (i, 3) :: scanStarts l (i + 3) := by
  unfold scanStarts
  cases hl : l.length with
  | zero => omega
  | succ m =>
    rw [← hl]
    conv_lhs => rw [hl]
    simp only [scanGo, ← hl, if_pos h, if_neg h4, if_pos h3]
    rw [scanGo_fuel_irrel m l.length l (i + 3) (by omega) (by omega)]

theorem scanStarts_step {l : List Nat} {i : Nat} (h : i < l.length - 3)
    (h4 : ¬ (l.drop i).take 4 = [0, 0, 0, 1])
    (h3 : ¬ (l.drop i).take 3 = [0, 0, 1]) :
    scanStarts l i = scanStarts l (i + 1) := by
  unfold scanStarts
  cases hl : l.length with
  | zero => omega
  | succ m =>
    rw [← hl]
    conv_lhs => rw [hl]
    simp only [scanGo, ← hl, if_pos h, if_neg h4, if_neg h3]
    rw [scanGo_fuel_irrel m l.length l (i + 1) (by omega) (by omega)]

theorem stopPos_stop {l : List Nat} {i : Nat} (h : ¬ i < l.length - 3) :
    stopPos l i = i := by
  unfold stopPos
  cases hl : l.length with
  | zero => rfl
  | succ m => rw [← hl]; rw [hl]; simp only [stopGo, ← hl, if_neg h]

theorem stopPos_fire4 {l : List Nat} {i : Nat} (h : i < l.length - 3)
    (h4 : (l.drop i).take 4 = [0, 0, 0, 1]) :
    stopPos l i = stopPos l (i + 4) := by
  unfold stopPos
  cases hl : l.length with
  | zero => omega
  | succ m =>
    rw [← hl]
    conv_lhs => rw [hl]
    simp only [stopGo, ← hl, if_pos h, if_pos h4]
    rw [stopGo_fuel_irrel m l.length l (i + 4) (by omega) (by omega)]

theorem stopPos_fire3 {l : List Nat} {i : Nat} (h : i < l.length - 3)
    (h4 : ¬ (l.drop i).take 4 = [0, 0, 0, 1])
    (h3 : (l.drop i).take 3 = [0, 0, 1]) :
    stopPos l i = stopPos l (i + 3) := by
  unfold stopPos
  cases hl : l.length with
  | zero => omega
  | succ m =>
    rw [← hl]
    conv_lhs => rw [hl]
    simp only [stopGo, ← hl, if_pos h, if_neg h4, if_pos h3]
    rw [stopGo_fuel_irrel m l.length l (i + 3) (by omega) (by omega)]

theorem stopPos_step {l : List Nat} {i : Nat} (h : i < l.length - 3)
    (h4 : ¬ (l.drop i).take 4 = [0, 0, 0, 1])
    (h3 : ¬ (l.drop i).take 3 = [0, 0, 1]) :
    stopPos l i = stopPos l (i + 1) := by
  unfold stopPos
  cases hl : l.length with
  | zero => omega
  | succ m =>
    rw [← hl]
    conv_lhs => rw [hl]
    simp only [stopGo, ← hl, if_pos h, if_neg h4, if_neg h3]
    rw [stopGo_fuel_irrel m l.length l (i + 1) (by omega) (by omega)]

theorem scanFullStarts_stop {l : List Nat} {i : Nat} (h : ¬ i < l.length) :
    scanFullStarts l i = [] := by
  unfold scanFullStarts
  cases hl : l.length with
  | zero => rfl
  | succ m => rw [← hl]; rw [hl]; simp only [scanFullGo, ← hl, if_neg h]

theorem scanFullStarts_fire4 {l : List Nat} {i : Nat} (h : i < l.length)
    (h4 : (l.drop i).take 4 = [0, 0, 0, 1]) :
    scanFullStarts l i = (i, 4) :: scanFullStarts l (i + 4) := by
  unfold scanFullStarts
  cases hl : l.length with
  | zero => omega
  | succ m =>
    rw [← hl]
    conv_lhs => rw [hl]
    simp only [scanFullGo, ← hl, if_pos h, if_pos h4]
    rw [scanFullGo_fuel_irrel m l.length l (i + 4) (by omega) (by omega)]

theorem scanFullStarts_fire3 {l : List Nat} {i : Nat} (h : i < l.length)
    (h4 : ¬ (l.drop i).take 4 = [0, 0, 0, 1])
    (h3 : (l.drop i).take 3 = [0, 0, 1]) :
    scanFullStarts l i = (i, 3) :: scanFullStarts l (i + 3) := by
  unfold scanFullStarts
  cases hl : l.length with
  | zero => omega
  | succ m =>
    rw [← hl]
    conv_lhs => rw [hl]
    simp only [scanFullGo, ← hl, if_pos h, if_neg h4, if_pos h3]
    rw [scanFullGo_fuel_irrel m l.length l (i + 3) (by omega) (by omega)]

theorem scanFullStarts_step {l : List Nat} {i : Nat} (h : i < l.length)
    (h4 : ¬ (l.drop i).take 4 = [0, 0, 0, 1])
    (h3 : ¬ (l.drop i).take 3 = [0, 0, 1]) :
    scanFullStarts l i = scanFullStarts l (i + 1) := by
  unfold scanFullStarts
  cases hl : l.length with
  | zero => omega
  | succ m =>
    rw [← hl]
    conv_lhs => rw [hl]
    simp only [scanFullGo, ← hl, if_pos h, if_neg h4, if_neg h3]
    rw [scanFullGo_fuel_irrel m l.length l (i + 1) (by omega) (by omega)]

end ScrcpyBridge

namespace ScrcpyBridge

/-! ## Extraction of complete NAL units (`_extract_nal_units`) -/

/-- Consecutive pairs of a list — the index pairs
`(start_positions[idx], start_positions[idx+1])` enumerated by the extraction
loop `for idx in range(len(start_positions) - 1)`. -/
def pairsOf : List (Nat × Nat) → List ((Nat × Nat) × (Nat × Nat))
  | a :: b :: t => (a, b) :: pairsOf (b :: t)
  | _ => []

/-- The complete units cut between consecutive start positions:
`nal_unit = bytes(buf[start_pos:next_start_pos])`. -/
def unitsOf (buf : List Nat) (ps : List (Nat × Nat)) : List (List Nat) :=
  (pairsOf ps).map fun ab => (buf.drop ab.1.1).take (ab.2.1 - ab.1.1)

/-- `_extract_nal_units`: returns the complete units and the new buffer
(`buf[last_start_pos:]`).  With fewer than two start positions nothing is
yielded and the buffer is left unchanged. -/
def extractNalUnits (buf : List Nat) : List (List Nat) × List Nat :=
  let sps := scanStarts buf 0
  if sps.length < 2 then ([], buf)
  else (unitsOf buf sps, buf.drop (sps.getLastD (0, 0)).1)

/-- One iteration of `_video_stream_loop`'s framing step:
`self._nal_buffer.extend(data)` followed by `_extract_nal_units()`. -/
def ingest (buf data : List Nat) : List (List Nat) × List Nat :=
  extractNalUnits (buf ++ data)

/-- Feeding a sequence of reads to the framer, collecting all units yielded
across the ingestions and the final buffer contents. -/
def ingestAll (buf : List Nat) : List (List Nat) → List (List Nat) × List Nat
  | [] => ([], buf)
  | c :: cs =>
    let r := ingest buf c
    let rest := ingestAll r.2 cs
    (r.1 ++ rest.1, rest.2)

/-- A genuine start marker of length `n` sits at position `p` of `l`. -/
def isStartCodeAt (l : List Nat) (p n : Nat) : Prop :=
  (n = 4 ∧ (l.drop p).take 4 = [0, 0, 0, 1]) ∨
    (n = 3 ∧ (l.drop p).take 3 = [0, 0, 1])

/-! ## Scan lemmas -/

theorem window_take_append {l d : List Nat} {i k : Nat} (h : i + k ≤ l.length) :
    ((l ++ d).drop i).take k = (l.drop i).take k := by
  rw [List.drop_append_of_le_length (by omega),
    List.take_append_of_le_length (by simp; omega)]

theorem stopPos_ge (l : List Nat) : ∀ i, l.length - 3 ≤ stopPos l i ∧ i ≤ stopPos l i := by
  have key : ∀ k i, l.length - i ≤ k → l.length - 3 ≤ stopPos l i ∧ i ≤ stopPos l i := by
    intro k
    induction k with
    | zero =>
      intro i h
      have hg : ¬ i < l.length - 3 := by omega
      rw [stopPos_stop hg]
      omega
    | succ k ih =>
      intro i h
      by_cases hg : i < l.length - 3
      · by_cases h4 : (l.drop i).take 4 = [0, 0, 0, 1]
        · rw [stopPos_fire4 hg h4]
          have := ih (i + 4) (by omega)
          omega
        · by_cases h3 : (l.drop i).take 3 = [0, 0, 1]
          · rw [stopPos_fire3 hg h4 h3]
            have := ih (i + 3) (by omega)
            omega
          · rw [stopPos_step hg h4 h3]
            have := ih (i + 1) (by omega)
            omega
      · rw [stopPos_stop hg]
        omega
  exact fun i => key l.length i (by omega)

theorem mem_scanStarts {l : List Nat} :
    ∀ i p n, (p, n) ∈ scanStarts l i →
      i ≤ p ∧ p < l.length - 3 ∧
        ((n = 4 ∧ (l.drop p).take 4 = [0, 0, 0, 1]) ∨
          (n = 3 ∧ ¬ (l.drop p).take 4 = [0, 0, 0, 1] ∧ (l.drop p).take 3 = [0, 0, 1])) := by
  have key : ∀ k i, l.length - i ≤ k → ∀ p n, (p, n) ∈ scanStarts l i →
      i ≤ p ∧ p < l.length - 3 ∧
        ((n = 4 ∧ (l.drop p).take 4 = [0, 0, 0, 1]) ∨
          (n = 3 ∧ ¬ (l.drop p).take 4 = [0, 0, 0, 1] ∧ (l.drop p).take 3 = [0, 0, 1])) := by
    intro k
    induction k with
    | zero =>
      intro i h p n hmem
      have hg : ¬ i < l.length - 3 := by omega
      rw [scanStarts_stop hg] at hmem
      simp at hmem
    | succ k ih =>
      intro i h p n hmem
      by_cases hg : i < l.length - 3
      · by_cases h4 : (l.drop i).take 4 = [0, 0, 0, 1]
        · rw [scanStarts_fire4 hg h4] at hmem
          rcases List.mem_cons.mp hmem with heq | htail
          · rw [Prod.mk.injEq] at heq
            obtain ⟨rfl, rfl⟩ := heq
            exact ⟨le_refl _, hg, Or.inl ⟨rfl, h4⟩⟩
          · have := ih (i + 4) (by omega) p n htail
            exact ⟨by omega, this.2.1, this.2.2⟩
        · by_cases h3 : (l.drop i).take 3 = [0, 0, 1]
          · rw [scanStarts_fire3 hg h4 h3] at hmem
            rcases List.mem_cons.mp hmem with heq | htail
            · rw [Prod.mk.injEq] at heq
              obtain ⟨rfl, rfl⟩ := heq
              exact ⟨le_refl _, hg, Or.inr ⟨rfl, h4, h3⟩⟩
            · have := ih (i + 3) (by omega) p n htail
              exact ⟨by omega, this.2.1, this.2.2⟩
          · rw [scanStarts_step hg h4 h3] at hmem
            have := ih (i + 1) (by omega) p n hmem
            exact ⟨by omega, this.2.1, this.2.2⟩
      · rw [scanStarts_stop hg] at hmem
        simp at hmem
  exact fun i => key l.length i (by omega)

theorem scanStarts_append (l d : List Nat) :
    ∀ i, scanStarts (l ++ d) i = scanStarts l i ++ scanStarts (l ++ d) (stopPos l i) := by
  have key : ∀ k i, l.length - i ≤ k →
      scanStarts (l ++ d) i = scanStarts l i ++ scanStarts (l ++ d) (stopPos l i) := by
    intro k
    induction k with
    | zero =>
      intro i h
      have hg : ¬ i < l.length - 3 := by omega
      rw [scanStarts_stop hg, stopPos_stop hg, List.nil_append]
    | succ k ih =>
      intro i h
      by_cases hg : i < l.length - 3
      · have hg' : i < (l ++ d).length - 3 := by simp; omega
        by_cases h4 : (l.drop i).take 4 = [0, 0, 0, 1]
        · have h4' : ((l ++ d).drop i).take 4 = [0, 0, 0, 1] := by
            rw [window_take_append (by omega)]; exact h4
          rw [scanStarts_fire4 hg' h4', scanStarts_fire4 hg h4, stopPos_fire4 hg h4,
            ih (i + 4) (by omega), List.cons_append]
        · have h4' : ¬ ((l ++ d).drop i).take 4 = [0, 0, 0, 1] := by
            rw [window_take_append (by omega)]; exact h4
          by_cases h3 : (l.drop i).take 3 = [0, 0, 1]
          · have h3' : ((l ++ d).drop i).take 3 = [0, 0, 1] := by
              rw [window_take_append (by omega)]; exact h3
            rw [scanStarts_fire3 hg' h4' h3', scanStarts_fire3 hg h4 h3, stopPos_fire3 hg h4 h3,
              ih (i + 3) (by omega), List.cons_append]
          · have h3' : ¬ ((l ++ d).drop i).take 3 = [0, 0, 1] := by
              rw [window_take_append (by omega)]; exact h3
            rw [scanStarts_step hg' h4' h3', scanStarts_step hg h4 h3, stopPos_step hg h4 h3,
              ih (i + 1) (by omega)]
      · rw [scanStarts_stop hg, stopPos_stop hg, List.nil_append]
  exact fun i => key l.length i (by omega)

theorem scanStarts_shift (x y : List Nat) :
    ∀ j, scanStarts (x ++ y) (x.length + j) =
        (scanStarts y j).map (fun pn => (pn.1 + x.length, pn.2)) ∧
      stopPos (x ++ y) (x.length + j) = x.length + stopPos y j := by
  have hlen : (x ++ y).length = x.length + y.length := by simp
  have hguard : ∀ j, (x.length + j < (x ++ y).length - 3) ↔ (j < y.length - 3) := by
    intro j; omega
  have hwin : ∀ j k, ((x ++ y).drop (x.length + j)).take k = (y.drop j).take k := by
    intro j k
    rw [List.drop_append j]
  have key : ∀ k j, y.length - j ≤ k →
      scanStarts (x ++ y) (x.length + j) =
          (scanStarts y j).map (fun pn => (pn.1 + x.length, pn.2)) ∧
        stopPos (x ++ y) (x.length + j) = x.length + stopPos y j := by
    intro k
    induction k with
    | zero =>
      intro j h
      have hg : ¬ j < y.length - 3 := by omega
      have hg' : ¬ x.length + j < (x ++ y).length - 3 := by rw [hguard]; exact hg
      rw [scanStarts_stop hg, scanStarts_stop hg', stopPos_stop hg, stopPos_stop hg']
      simp
    | succ k ih =>
      intro j h
      by_cases hg : j < y.length - 3
      · have hg' : x.length + j < (x ++ y).length - 3 := by rw [hguard]; exact hg
        by_cases h4 : (y.drop j).take 4 = [0, 0, 0, 1]
        · have h4' : ((x ++ y).drop (x.length + j)).take 4 = [0, 0, 0, 1] := by
            rw [hwin]; exact h4
          have harith : x.length + j + 4 = x.length + (j + 4) := by omega
          rw [scanStarts_fire4 hg' h4', scanStarts_fire4 hg h4,
            stopPos_fire4 hg' h4', stopPos_fire4 hg h4, harith]
          have := ih (j + 4) (by omega)
          rw [this.1, this.2]
          simp [Nat.add_comm]
        · have h4' : ¬ ((x ++ y).drop (x.length + j)).take 4 = [0, 0, 0, 1] := by
            rw [hwin]; exact h4
          by_cases h3 : (y.drop j).take 3 = [0, 0, 1]
          · have h3' : ((x ++ y).drop (x.length + j)).take 3 = [0, 0, 1] := by
              rw [hwin]; exact h3
            have harith : x.length + j + 3 = x.length + (j + 3) := by omega
            rw [scanStarts_fire3 hg' h4' h3', scanStarts_fire3 hg h4 h3,
              stopPos_fire3 hg' h4' h3', stopPos_fire3 hg h4 h3, harith]
            have := ih (j + 3) (by omega)
            rw [this.1, this.2]
            simp [Nat.add_comm]
          · have h3' : ¬ ((x ++ y).drop (x.length + j)).take 3 = [0, 0, 1] := by
              rw [hwin]; exact h3
            have harith : x.length + j + 1 = x.length + (j + 1) := by omega
            rw [scanStarts_step hg' h4' h3', scanStarts_step hg h4 h3,
              stopPos_step hg' h4' h3', stopPos_step hg h4 h3, harith]
            exact ih (j + 1) (by omega)
      · have hg' : ¬ x.length + j < (x ++ y).length - 3 := by rw [hguard]; exact hg
        rw [scanStarts_stop hg, scanStarts_stop hg', stopPos_stop hg, stopPos_stop hg']
        simp
  exact fun j => key y.length j (by omega)

theorem scanStarts_resume {l : List Nat} :
    ∀ i L p n, scanStarts l i = L ++ [(p, n)] →
      scanStarts l p = [(p, n)] ∧ stopPos l p = stopPos l i := by
  have key : ∀ k i, l.length - i ≤ k → ∀ L p n, scanStarts l i = L ++ [(p, n)] →
      scanStarts l p = [(p, n)] ∧ stopPos l p = stopPos l i := by
    intro k
    induction k with
    | zero =>
      intro i h L p n heq
      have hg : ¬ i < l.length - 3 := by omega
      rw [scanStarts_stop hg] at heq
      exact absurd heq.symm (List.append_ne_nil_of_right_ne_nil L (by simp))
    | succ k ih =>
      intro i h L p n heq
      by_cases hg : i < l.length - 3
      · by_cases h4 : (l.drop i).take 4 = [0, 0, 0, 1]
        · rw [scanStarts_fire4 hg h4] at heq
          cases L with
          | nil =>
            simp at heq
            obtain ⟨⟨rfl, rfl⟩, htail⟩ := heq
            refine ⟨?_, rfl⟩
            rw [scanStarts_fire4 hg h4, htail]
          | cons a L' =>
            simp at heq
            obtain ⟨rfl, htail⟩ := heq
            have := ih (i + 4) (by omega) L' p n htail
            rw [stopPos_fire4 hg h4]
            exact this
        · by_cases h3 : (l.drop i).take 3 = [0, 0, 1]
          · rw [scanStarts_fire3 hg h4 h3] at heq
            cases L with
            | nil =>
              simp at heq
              obtain ⟨⟨rfl, rfl⟩, htail⟩ := heq
              refine ⟨?_, rfl⟩
              rw [scanStarts_fire3 hg h4 h3, htail]
            | cons a L' =>
              simp at heq
              obtain ⟨rfl, htail⟩ := heq
              have := ih (i + 3) (by omega) L' p n htail
              rw [stopPos_fire3 hg h4 h3]
              exact this
          · rw [scanStarts_step hg h4 h3] at heq
            have := ih (i + 1) (by omega) L p n heq
            rw [stopPos_step hg h4 h3]
            exact this
      · rw [scanStarts_stop hg] at heq
        exact absurd heq.symm (List.append_ne_nil_of_right_ne_nil L (by simp))
  exact fun i => key l.length i (by omega)

theorem scanFullStarts_decomp (l : List Nat) :
    ∀ i, scanFullStarts l i = scanStarts l i ++ scanFullStarts l (stopPos l i) := by
  have key : ∀ k i, l.length - i ≤ k →
      scanFullStarts l i = scanStarts l i ++ scanFullStarts l (stopPos l i) := by
    intro k
    induction k with
    | zero =>
      intro i h
      have hg : ¬ i < l.length - 3 := by omega
      rw [scanStarts_stop hg, stopPos_stop hg, List.nil_append]
    | succ k ih =>
      intro i h
      by_cases hg : i < l.length - 3
      · have hg' : i < l.length := by omega
        by_cases h4 : (l.drop i).take 4 = [0, 0, 0, 1]
        · rw [scanFullStarts_fire4 hg' h4, scanStarts_fire4 hg h4, stopPos_fire4 hg h4,
            ih (i + 4) (by omega), List.cons_append]
        · by_cases h3 : (l.drop i).take 3 = [0, 0, 1]
          · rw [scanFullStarts_fire3 hg' h4 h3, scanStarts_fire3 hg h4 h3, stopPos_fire3 hg h4 h3,
              ih (i + 3) (by omega), List.cons_append]
          · rw [scanFullStarts_step hg' h4 h3, scanStarts_step hg h4 h3, stopPos_step hg h4 h3,
              ih (i + 1) (by omega)]
      · rw [scanStarts_stop hg, stopPos_stop hg, List.nil_append]
  exact fun i => key l.length i (by omega)

theorem scanFullStarts_tail {l : List Nat} :
    ∀ i, l.length ≤ i + 3 → ∀ pn ∈ scanFullStarts l i, pn.2 = 3 ∧ pn.1 + 3 = l.length := by
  have key : ∀ k i, l.length - i ≤ k → l.length ≤ i + 3 →
      ∀ pn ∈ scanFullStarts l i, pn.2 = 3 ∧ pn.1 + 3 = l.length := by
    intro k
    induction k with
    | zero =>
      intro i h h3i pn hmem
      have hg : ¬ i < l.length := by omega
      rw [scanFullStarts_stop hg] at hmem
      simp at hmem
    | succ k ih =>
      intro i h h3i pn hmem
      by_cases hg : i < l.length
      · have h4 : ¬ (l.drop i).take 4 = [0, 0, 0, 1] := by
          intro hcon
          have : ((l.drop i).take 4).length = 4 := by rw [hcon]; rfl
          simp at this
          omega
        by_cases h3 : (l.drop i).take 3 = [0, 0, 1]
        · have hlen3 : ((l.drop i).take 3).length = 3 := by rw [h3]; rfl
          have : i + 3 = l.length := by simp at hlen3; omega
          rw [scanFullStarts_fire3 hg h4 h3] at hmem
          rcases List.mem_cons.mp hmem with heq | htail
          · subst heq; exact ⟨rfl, this⟩
          · rw [scanFullStarts_stop (by omega)] at htail
            simp at htail
        · rw [scanFullStarts_step hg h4 h3] at hmem
          exact ih (i + 1) (by omega) (by omega) pn hmem
      · rw [scanFullStarts_stop hg] at hmem
        simp at hmem
  exact fun i => key l.length i (by omega)

theorem mem_scanFullStarts {l : List Nat} :
    ∀ i p n, (p, n) ∈ scanFullStarts l i → isStartCodeAt l p n := by
  have key : ∀ k i, l.length - i ≤ k → ∀ p n, (p, n) ∈ scanFullStarts l i →
      isStartCodeAt l p n := by
    intro k
    induction k with
    | zero =>
      intro i h p n hmem
      have hg : ¬ i < l.length := by omega
      rw [scanFullStarts_stop hg] at hmem
      simp at hmem
    | succ k ih =>
      intro i h p n hmem
      by_cases hg : i < l.length
      · by_cases h4 : (l.drop i).take 4 = [0, 0, 0, 1]
        · rw [scanFullStarts_fire4 hg h4] at hmem
          rcases List.mem_cons.mp hmem with heq | htail
          · rw [Prod.mk.injEq] at heq
            obtain ⟨rfl, rfl⟩ := heq
            exact Or.inl ⟨rfl, h4⟩
          · exact ih (i + 4) (by omega) p n htail
        · by_cases h3 : (l.drop i).take 3 = [0, 0, 1]
          · rw [scanFullStarts_fire3 hg h4 h3] at hmem
            rcases List.mem_cons.mp hmem with heq | htail
            · rw [Prod.mk.injEq] at heq
              obtain ⟨rfl, rfl⟩ := heq
              exact Or.inr ⟨rfl, h3⟩
            · exact ih (i + 3) (by omega) p n htail
          · rw [scanFullStarts_step hg h4 h3] at hmem
            exact ih (i + 1) (by omega) p n hmem
      · rw [scanFullStarts_stop hg] at hmem
        simp at hmem
  exact fun i => key l.length i (by omega)

end ScrcpyBridge


namespace ScrcpyBridge

/-! ## Pairs and units lemmas -/

theorem pairsOf_length : ∀ ps : List (Nat × Nat), (pairsOf ps).length = ps.length - 1 := by
  intro ps
  induction ps with
  | nil => rfl
  | cons a t ih =>
    cases t with
    | nil => rfl
    | cons b t' =>
      show ((a, b) :: pairsOf (b :: t')).length = _
      simp only [List.length_cons]
      simp only [List.length_cons] at ih
      omega

theorem mem_pairsOf : ∀ (ps : List (Nat × Nat)) (ab : (Nat × Nat) × (Nat × Nat)),
    ab ∈ pairsOf ps → ab.1 ∈ ps ∧ ab.2 ∈ ps := by
  intro ps
  induction ps with
  | nil => intro ab h; simp [pairsOf] at h
  | cons a t ih =>
    intro ab h
    cases t with
    | nil => simp [pairsOf] at h
    | cons b t' =>
      rcases List.mem_cons.mp h with heq | htail
      · subst heq
        exact ⟨List.mem_cons_self .., List.mem_cons_of_mem _ (List.mem_cons_self ..)⟩
      · have := ih ab htail
        exact ⟨List.mem_cons_of_mem _ this.1, List.mem_cons_of_mem _ this.2⟩

theorem pairsOf_concat_append :
    ∀ (L : List (Nat × Nat)) (a : Nat × Nat) (ys : List (Nat × Nat)),
      pairsOf ((L ++ [a]) ++ ys) = pairsOf (L ++ [a]) ++ pairsOf (a :: ys) := by
  intro L
  induction L with
  | nil => intro a ys; rfl
  | cons x L' ih =>
    intro a ys
    cases L' with
    | nil =>
      show pairsOf (x :: a :: ys) = pairsOf [x, a] ++ pairsOf (a :: ys)
      have h1 : pairsOf (x :: a :: ys) = (x, a) :: pairsOf (a :: ys) := rfl
      have h2 : pairsOf [x, a] = [(x, a)] := rfl
      rw [h1, h2]
      rfl
    | cons y L'' =>
      show pairsOf (x :: y :: ((L'' ++ [a]) ++ ys)) =
        pairsOf (x :: y :: (L'' ++ [a])) ++ pairsOf (a :: ys)
      have h1 : pairsOf (x :: y :: ((L'' ++ [a]) ++ ys)) =
          (x, y) :: pairsOf (y :: ((L'' ++ [a]) ++ ys)) := rfl
      have h2 : pairsOf (x :: y :: (L'' ++ [a])) =
          (x, y) :: pairsOf (y :: (L'' ++ [a])) := rfl
      rw [h1, h2, List.cons_append]
      exact congrArg _ (ih a ys)

theorem pairsOf_map (f : Nat × Nat → Nat × Nat) :
    ∀ ps : List (Nat × Nat),
      pairsOf (ps.map f) = (pairsOf ps).map fun ab => (f ab.1, f ab.2) := by
  intro ps
  induction ps with
  | nil => rfl
  | cons a t ih =>
    cases t with
    | nil => rfl
    | cons b t' =>
      show pairsOf (f a :: f b :: (t'.map f)) = _
      have h1 : pairsOf (f a :: f b :: (t'.map f)) =
          (f a, f b) :: pairsOf (f b :: t'.map f) := rfl
      rw [h1]
      have h2 : pairsOf ((b :: t').map f) = pairsOf (f b :: t'.map f) := rfl
      rw [← h2, ih]
      rfl

theorem unitsOf_length (l : List Nat) (ps : List (Nat × Nat)) :
    (unitsOf l ps).length = ps.length - 1 := by
  unfold unitsOf
  rw [List.length_map, pairsOf_length]

theorem unitsOf_append_agree {l d : List Nat} {ps : List (Nat × Nat)}
    (h : ∀ pn ∈ ps, pn.1 ≤ l.length) :
    unitsOf (l ++ d) ps = unitsOf l ps := by
  unfold unitsOf
  apply List.map_congr_left
  intro ab hab
  have hm := mem_pairsOf ps ab hab
  have h1 := h ab.1 hm.1
  have h2 := h ab.2 hm.2
  by_cases hle : ab.1.1 ≤ ab.2.1
  · exact window_take_append (by omega)
  · have hz : ab.2.1 - ab.1.1 = 0 := by omega
    rw [hz]
    simp

theorem unitsOf_shift (x z : List Nat) (ps : List (Nat × Nat)) :
    unitsOf (x ++ z) (ps.map fun pn => (pn.1 + x.length, pn.2)) = unitsOf z ps := by
  unfold unitsOf
  rw [pairsOf_map, List.map_map]
  apply List.map_congr_left
  intro ab _
  show ((x ++ z).drop (ab.1.1 + x.length)).take ((ab.2.1 + x.length) - (ab.1.1 + x.length)) =
    (z.drop ab.1.1).take (ab.2.1 - ab.1.1)
  rw [Nat.add_comm ab.1.1 x.length, List.drop_append]
  congr 1
  omega

/-! ## Unfolding the extractor -/

theorem extractNalUnits_few {buf : List Nat} (h : (scanStarts buf 0).length < 2) :
    extractNalUnits buf = ([], buf) := by
  unfold extractNalUnits
  rw [if_pos h]

theorem extractNalUnits_many {buf : List Nat} (h : ¬ (scanStarts buf 0).length < 2) :
    extractNalUnits buf =
      (unitsOf buf (scanStarts buf 0),
        buf.drop ((scanStarts buf 0).getLastD (0, 0)).1) := by
  unfold extractNalUnits
  rw [if_neg h]

end ScrcpyBridge

namespace ScrcpyBridge

/-! ## Composition: extracting after appending new data equals extracting
before and after.  This is the key step for streaming-equals-batch. -/

theorem extract_compose (b d : List Nat) :
    extractNalUnits (b ++ d) =
      ((extractNalUnits b).1 ++ (extractNalUnits ((extractNalUnits b).2 ++ d)).1,
        (extractNalUnits ((extractNalUnits b).2 ++ d)).2) := by
  by_cases hlt : (scanStarts b 0).length < 2
  · rw [extractNalUnits_few hlt]
    simp
  · rcases List.eq_nil_or_concat (scanStarts b 0) with hnil | ⟨L, pn, hconcat⟩
    · rw [hnil] at hlt; simp at hlt
    obtain ⟨p, n⟩ := pn
    rw [List.concat_eq_append] at hconcat
    obtain ⟨hresume, hstopeq⟩ := scanStarts_resume 0 L p n hconcat
    have hplt : p < b.length - 3 := by
      have hmem : (p, n) ∈ scanStarts b 0 := by rw [hconcat]; simp
      exact (mem_scanStarts 0 p n hmem).2.1
    have hple : p ≤ b.length := by omega
    have hsplit : b.take p ++ b.drop p = b := List.take_append_drop p b
    have hxlen : (b.take p).length = p := by simp; omega
    have hsh := scanStarts_shift (b.take p) (b.drop p) 0
    rw [hsplit, hxlen] at hsh
    simp only [Nat.add_zero] at hsh
    have hb1 : scanStarts (b.drop p) 0 = [(0, n)] := by
      have hmap : (scanStarts (b.drop p) 0).map (fun pn => (pn.1 + p, pn.2)) = [(p, n)] := by
        rw [← hsh.1]; exact hresume
      cases hM : scanStarts (b.drop p) 0 with
      | nil => rw [hM] at hmap; simp at hmap
      | cons q M' =>
        obtain ⟨q1, q2⟩ := q
        cases M' with
        | nil =>
          rw [hM] at hmap
          simp at hmap
          obtain ⟨h1, h2⟩ := hmap
          have hq1 : q1 = 0 := by omega
          rw [hq1, h2]
        | cons r M'' => rw [hM] at hmap; simp at hmap
    have hstop0 : stopPos b 0 = p + stopPos (b.drop p) 0 := by
      rw [← hstopeq, hsh.2]
    have happB := scanStarts_append b d 0
    have happB1 := scanStarts_append (b.drop p) d 0
    rw [hb1] at happB1
    have hassoc : b.take p ++ (b.drop p ++ d) = b ++ d := by
      rw [← List.append_assoc, hsplit]
    have hsh2 := scanStarts_shift (b.take p) (b.drop p ++ d) (stopPos (b.drop p) 0)
    rw [hassoc, hxlen] at hsh2
    have hM : scanStarts (b ++ d) 0 =
        scanStarts b 0 ++
          (scanStarts (b.drop p ++ d) (stopPos (b.drop p) 0)).map
            (fun pn => (pn.1 + p, pn.2)) := by
      rw [happB, hstop0, hsh2.1]
    have hEb : extractNalUnits b = (unitsOf b (scanStarts b 0), b.drop p) := by
      rw [extractNalUnits_many hlt, hconcat]
      simp
    have hsps_le : ∀ pn ∈ scanStarts b 0, pn.1 ≤ b.length := by
      intro pn hpn
      have := mem_scanStarts 0 pn.1 pn.2 (by simpa using hpn)
      omega
    have hlen_sps : 2 ≤ (scanStarts b 0).length := by omega
    rcases List.eq_nil_or_concat (scanStarts (b.drop p ++ d) (stopPos (b.drop p) 0)) with
      hRnil | ⟨R'', rl, hRcon⟩
    · -- no further marker appears in the appended data: the second extraction
      -- yields nothing, and only the leading batch yields units
      rw [hRnil] at hM happB1
      simp only [List.map_nil, List.append_nil] at hM happB1
      have hfew : (scanStarts (b.drop p ++ d) 0).length < 2 := by
        rw [happB1]; simp
      have hmany : ¬ (scanStarts (b ++ d) 0).length < 2 := by
        rw [hM]; omega
      have hunits : unitsOf (b ++ d) (scanStarts (b ++ d) 0) = unitsOf b (scanStarts b 0) := by
        rw [hM]
        exact unitsOf_append_agree hsps_le
      have hlast : ((scanStarts (b ++ d) 0).getLastD (0, 0)).1 = p := by
        rw [hM, hconcat]; simp
      rw [hEb, extractNalUnits_few hfew, extractNalUnits_many hmany]
      rw [Prod.mk.injEq]
      constructor
      · show unitsOf (b ++ d) (scanStarts (b ++ d) 0) = unitsOf b (scanStarts b 0) ++ []
        rw [hunits, List.append_nil]
      · show List.drop ((scanStarts (b ++ d) 0).getLastD (0, 0)).1 (b ++ d) = b.drop p ++ d
        rw [hlast, List.drop_append_of_le_length hple]
    · -- at least one further marker is found in the appended data
      rw [List.concat_eq_append] at hRcon
      have hmanyB1 : ¬ (scanStarts (b.drop p ++ d) 0).length < 2 := by
        rw [happB1, hRcon]
        simp
      have hmanyBD : ¬ (scanStarts (b ++ d) 0).length < 2 := by
        rw [hM]
        simp
        omega
      have hcons : (p, n) :: (scanStarts (b.drop p ++ d) (stopPos (b.drop p) 0)).map
          (fun pn => (pn.1 + p, pn.2)) =
          (scanStarts (b.drop p ++ d) 0).map (fun pn => (pn.1 + p, pn.2)) := by
        rw [happB1]
        simp
      have hunits : unitsOf (b ++ d) (scanStarts (b ++ d) 0) =
          unitsOf b (scanStarts b 0) ++
            unitsOf (b.drop p ++ d) (scanStarts (b.drop p ++ d) 0) := by
        rw [hM, hconcat]
        have hsplitpairs : unitsOf (b ++ d) ((L ++ [(p, n)]) ++
            (scanStarts (b.drop p ++ d) (stopPos (b.drop p) 0)).map
              (fun pn => (pn.1 + p, pn.2))) =
            unitsOf (b ++ d) (L ++ [(p, n)]) ++
              unitsOf (b ++ d) ((p, n) :: (scanStarts (b.drop p ++ d)
                (stopPos (b.drop p) 0)).map (fun pn => (pn.1 + p, pn.2))) := by
          unfold unitsOf
          rw [pairsOf_concat_append, List.map_append]
        rw [hsplitpairs, hcons]
        congr 1
        · rw [← hconcat]
          exact unitsOf_append_agree hsps_le
        · rw [← hassoc]
          rw [show (fun pn : Nat × Nat => (pn.1 + p, pn.2)) =
              (fun pn : Nat × Nat => (pn.1 + (b.take p).length, pn.2)) by rw [hxlen]]
          exact unitsOf_shift (b.take p) (b.drop p ++ d) _
      have hbuf : List.drop ((scanStarts (b ++ d) 0).getLastD (0, 0)).1 (b ++ d) =
          List.drop ((scanStarts (b.drop p ++ d) 0).getLastD (0, 0)).1
            (b.drop p ++ d) := by
        rw [hM, hconcat, happB1, hRcon, List.map_append]
        rw [show ((L ++ [(p, n)]) ++ ((R''.map fun pn => (pn.1 + p, pn.2)) ++
              ([rl].map fun pn => (pn.1 + p, pn.2)))) =
            (((L ++ [(p, n)]) ++ R''.map fun pn => (pn.1 + p, pn.2)) ++
              [(rl.1 + p, rl.2)]) by simp]
        rw [show (([(0, n)] : List (Nat × Nat)) ++ (R'' ++ [rl])) =
            (([(0, n)] ++ R'') ++ [rl]) by simp]
        simp only [List.getLastD_concat]
        rw [← hassoc, show rl.1 + p = (b.take p).length + rl.1 by omega]
        rw [List.drop_append]
      rw [hEb, extractNalUnits_many hmanyB1, extractNalUnits_many hmanyBD]
      rw [Prod.mk.injEq]
      constructor
      · show unitsOf (b ++ d) (scanStarts (b ++ d) 0) =
          unitsOf b (scanStarts b 0) ++
            unitsOf (b.drop p ++ d) (scanStarts (b.drop p ++ d) 0)
        exact hunits
      · show List.drop ((scanStarts (b ++ d) 0).getLastD (0, 0)).1 (b ++ d) =
          List.drop ((scanStarts (b.drop p ++ d) 0).getLastD (0, 0)).1 (b.drop p ++ d)
        exact hbuf

end ScrcpyBridge

namespace ScrcpyBridge

/-! ## Streaming equals batch -/

theorem ingestAll_extract (cs : List (List Nat)) : ∀ b : List Nat,
    ((extractNalUnits b).1 ++ (ingestAll (extractNalUnits b).2 cs).1,
      (ingestAll (extractNalUnits b).2 cs).2) = extractNalUnits (b ++ cs.join) := by
  induction cs with
  | nil =>
    intro b
    show ((extractNalUnits b).1 ++ [], (extractNalUnits b).2) = extractNalUnits (b ++ [])
    rw [List.append_nil, List.append_nil]
  | cons c cs ih =>
    intro b
    show ((extractNalUnits b).1 ++ ((extractNalUnits ((extractNalUnits b).2 ++ c)).1 ++
        (ingestAll (extractNalUnits ((extractNalUnits b).2 ++ c)).2 cs).1),
      (ingestAll (extractNalUnits ((extractNalUnits b).2 ++ c)).2 cs).2) =
      extractNalUnits (b ++ (c ++ cs.join))
    have hih := ih (b ++ c)
    rw [extract_compose b c] at hih
    rw [← List.append_assoc b c cs.join, ← hih]
    rw [Prod.mk.injEq]
    exact ⟨(List.append_assoc ..).symm, rfl⟩

theorem extractNalUnits_nil : extractNalUnits [] = ([], []) := by
  have hscan : scanStarts ([] : List Nat) 0 = [] := scanStarts_stop (by simp)
  exact extractNalUnits_few (by rw [hscan]; simp)

/-- Feeding the chunks one by one produces exactly the units and final buffer
of a single batch extraction over the concatenated bytes. -/
theorem ingestAll_eq_batch (cs : List (List Nat)) :
    ingestAll [] cs = extractNalUnits cs.join := by
  have h := ingestAll_extract cs []
  rw [extractNalUnits_nil] at h
  simp only [List.nil_append] at h
  rw [← h]

/-! ## Relating the code's truncated scan to the full greedy marker scan -/

theorem scanFull_eq_scan_of_no_trailing {l : List Nat}
    (h : ∀ pn ∈ scanFullStarts l 0, pn.1 + pn.2 < l.length ∨ pn.2 = 4) :
    scanFullStarts l 0 = scanStarts l 0 := by
  have hdec := scanFullStarts_decomp l 0
  cases hcase : scanFullStarts l (stopPos l 0) with
  | nil => rw [hdec, hcase, List.append_nil]
  | cons q Q =>
    exfalso
    have hstop := (stopPos_ge l 0).1
    have hq := @scanFullStarts_tail l (stopPos l 0) (by omega) q (by rw [hcase]; simp)
    have hmem : q ∈ scanFullStarts l 0 := by
      rw [hdec, hcase]; simp
    rcases h q hmem with hlt | h4
    · omega
    · omega

end ScrcpyBridge

namespace ScrcpyBridge

/-- C1 (amended): for any byte sequence with `N ≥ 2` greedy start markers,
split arbitrarily into incremental ingestions, the framer yields exactly
`N - 1` complete units in total — each spanning from its own marker to the
byte before the next marker and beginning with a genuine start code — and
retains the bytes from the last marker onward in its buffer, never dropped
and never duplicated, PROVIDED at least one byte follows the final start
marker when that marker is a 3-byte code.  (A sequence ending exactly at a
3-byte start code leaves that final marker undetected, because the scan loop
`while i < len(buf) - 3` never examines the last three byte positions; see
the counterexample.) -/
theorem framer_incremental_n_minus_one (cs : List (List Nat)) (M : List (Nat × Nat))
    (hM : M = scanFullStarts cs.join 0)
    (hN : 2 ≤ M.length)
    (htail : ∀ pn ∈ M, pn.1 + pn.2 < cs.join.length ∨ pn.2 = 4) :
    (ingestAll [] cs).1.length = M.length - 1 ∧
    (ingestAll [] cs).1 = unitsOf cs.join M ∧
    (∃ L p n, M = L ++ [(p, n)] ∧ (ingestAll [] cs).2 = cs.join.drop p) ∧
    (∀ pn ∈ M, isStartCodeAt cs.join pn.1 pn.2) := by
  have hstart : ∀ pn ∈ M, isStartCodeAt cs.join pn.1 pn.2 := by
    intro pn hpn
    rw [hM] at hpn
    exact mem_scanFullStarts 0 pn.1 pn.2 (by simpa using hpn)
  have hSF : scanFullStarts cs.join 0 = scanStarts cs.join 0 :=
    scanFull_eq_scan_of_no_trailing (by rw [← hM]; exact htail)
  have hMs : M = scanStarts cs.join 0 := by rw [hM, hSF]
  have hlen : 2 ≤ (scanStarts cs.join 0).length := by rw [← hMs]; exact hN
  rcases List.eq_nil_or_concat (scanStarts cs.join 0) with hnil | ⟨L, pn, hconcat⟩
  · rw [hnil] at hlen; simp at hlen
  obtain ⟨p, n⟩ := pn
  rw [List.concat_eq_append] at hconcat
  have hbatch := ingestAll_eq_batch cs
  have hE : extractNalUnits cs.join =
      (unitsOf cs.join (L ++ [(p, n)]), cs.join.drop p) := by
    rw [extractNalUnits_many (by omega), hconcat]
    simp
  have hMc : M = L ++ [(p, n)] := by rw [hMs, hconcat]
  refine ⟨?_, ?_, ⟨L, p, n, hMc, ?_⟩, hstart⟩
  · rw [hbatch, hE]
    show (unitsOf cs.join (L ++ [(p, n)])).length = M.length - 1
    rw [unitsOf_length, hMc]
  · rw [hbatch, hE, hMc]
  · rw [hbatch, hE]

/-- C1 counterexample: the byte sequence `00 00 01 41 00 00 01` contains
`N = 2` start markers, yet feeding it to the framer yields no unit at all
(not `N - 1 = 1`): the trailing 3-byte start code lies within the last three
bytes, which the scan loop `while i < len(buf) - 3` never examines.  The
entire sequence — first marker included — remains in the buffer. -/
theorem framer_trailing_marker_counterexample :
    (scanFullStarts ([0, 0, 1, 65, 0, 0, 1] : List Nat) 0).length = 2 ∧
    ¬ ((ingestAll [] [[0, 0, 1, 65, 0, 0, 1]]).1.length =
        (scanFullStarts ([0, 0, 1, 65, 0, 0, 1] : List Nat) 0).length - 1) ∧
    (ingestAll [] [[0, 0, 1, 65, 0, 0, 1]]).2 = [0, 0, 1, 65, 0, 0, 1] := by
  decide

/-- Witness for C1 (amended): the sequence `00 00 00 01 07 | 00 00 01 08 09`
fed in two chunks has two markers and yields exactly one unit,
`00 00 00 01 07`, retaining `00 00 01 08 09` in the buffer. -/
theorem framer_incremental_witness :
    ([((0 : Nat), (4 : Nat)), (5, 3)] =
      scanFullStarts ([[0, 0, 0, 1, 7], [0, 0, 1, 8, 9]] : List (List Nat)).join 0) ∧
    (2 ≤ ([((0 : Nat), (4 : Nat)), (5, 3)] : List (Nat × Nat)).length) ∧
    (∀ pn ∈ ([((0 : Nat), (4 : Nat)), (5, 3)] : List (Nat × Nat)),
      pn.1 + pn.2 < ([[0, 0, 0, 1, 7], [0, 0, 1, 8, 9]] : List (List Nat)).join.length ∨
        pn.2 = 4) ∧
    ((ingestAll [] [[0, 0, 0, 1, 7], [0, 0, 1, 8, 9]]).1.length =
        ([((0 : Nat), (4 : Nat)), (5, 3)] : List (Nat × Nat)).length - 1 ∧
      (ingestAll [] [[0, 0, 0, 1, 7], [0, 0, 1, 8, 9]]).1 =
        unitsOf ([[0, 0, 0, 1, 7], [0, 0, 1, 8, 9]] : List (List Nat)).join
          [((0 : Nat), (4 : Nat)), (5, 3)] ∧
      (∃ L p n, ([((0 : Nat), (4 : Nat)), (5, 3)] : List (Nat × Nat)) = L ++ [(p, n)] ∧
        (ingestAll [] [[0, 0, 0, 1, 7], [0, 0, 1, 8, 9]]).2 =
          ([[0, 0, 0, 1, 7], [0, 0, 1, 8, 9]] : List (List Nat)).join.drop p) ∧
      (∀ pn ∈ ([((0 : Nat), (4 : Nat)), (5, 3)] : List (Nat × Nat)),
        isStartCodeAt ([[0, 0, 0, 1, 7], [0, 0, 1, 8, 9]] : List (List Nat)).join
          pn.1 pn.2)) :=
  ⟨by decide, by decide, by decide,
    framer_incremental_n_minus_one [[0, 0, 0, 1, 7], [0, 0, 1, 8, 9]]
      [(0, 4), (5, 3)] (by decide) (by decide) (by decide)⟩

end ScrcpyBridge

namespace ScrcpyBridge

/-! ## NAL unit type classification
(`_get_nal_type`, `_is_sps`, `_is_pps`, `_is_keyframe`) -/

/-- `_get_nal_type`: NAL unit type of a framed unit (assumes a single NAL
with start code).  Mirrors the code: fewer than five bytes → `-1`; 4-byte
start code → `data[4] & 0x1F`; 3-byte start code → `data[3] & 0x1F`;
otherwise `-1`. -/
def getNalType (data : List Nat) : Int :=
  if data.length < 5 then -1
  else if data.take 4 = [0, 0, 0, 1] then ((data.getD 4 0) &&& 31 : Nat)
  else if data.take 3 = [0, 0, 1] then ((data.getD 3 0) &&& 31 : Nat)
  else -1

/-- `_is_sps`: the unit is a Sequence Parameter Set (type 7). -/
def isSps (data : List Nat) : Bool := getNalType data == 7

/-- `_is_pps`: the unit is a Picture Parameter Set (type 8). -/
def isPps (data : List Nat) : Bool := getNalType data == 8

/-- `_is_keyframe`: the unit is an IDR keyframe (type 5). -/
def isKeyframe (data : List Nat) : Bool := getNalType data == 5

/-- C2 (amended): for a framed unit of at least five bytes beginning with a
start marker, the classifiers report the low five bits of the byte
immediately following the marker — 7 → SPS, 8 → PPS, 5 → keyframe, and any
other value → none of the three.  (Units of exactly four bytes — a 3-byte
marker followed by a single byte — are classified as none regardless of that
byte, because `_get_nal_type` requires `len(data) ≥ 5`; see the
counterexample.) -/
theorem nal_type_classification (data : List Nat) (n b : Nat)
    (hmark : (data.take 4 = [0, 0, 0, 1] ∧ n = 4) ∨
      (data.take 3 = [0, 0, 1] ∧ n = 3))
    (hb : data.getD n 0 = b)
    (hlen : 5 ≤ data.length) :
    getNalType data = ((b &&& 31 : Nat) : Int) ∧
    (isSps data = true ↔ b &&& 31 = 7) ∧
    (isPps data = true ↔ b &&& 31 = 8) ∧
    (isKeyframe data = true ↔ b &&& 31 = 5) := by
  have hty : getNalType data = ((b &&& 31 : Nat) : Int) := by
    rcases hmark with ⟨h4, hn⟩ | ⟨h3, hn⟩
    · subst hn; subst hb
      unfold getNalType
      rw [if_neg (by omega), if_pos h4]
    · subst hn; subst hb
      have h4 : ¬ data.take 4 = [0, 0, 0, 1] := by
        intro hcon
        have h34 : (data.take 4).take 3 = [0, 0, 0] := by rw [hcon]; rfl
        rw [List.take_take] at h34
        simp at h34
        rw [h3] at h34
        simp at h34
      unfold getNalType
      rw [if_neg (by omega), if_neg h4, if_pos h3]
  have hiff : ∀ k : Nat, ((getNalType data == (k : Int)) = true ↔ b &&& 31 = k) := by
    intro k
    rw [hty, beq_iff_eq]
    constructor
    · intro h; exact_mod_cast h
    · intro h; exact_mod_cast congrArg (Nat.cast : Nat → Int) h
  exact ⟨hty, hiff 7, hiff 8, hiff 5⟩

/-- C2 counterexample: the framed unit `00 00 01 07` begins with a 3-byte
start marker followed by one byte whose low five bits are 7 (an SPS header),
yet `_get_nal_type` returns `-1` (its `len(data) < 5` guard) and every
classifier reports `false`. -/
theorem nal_type_short_unit_counterexample :
    ([0, 0, 1, 7] : List Nat).take 3 = [0, 0, 1] ∧
    (7 : Nat) &&& 31 = 7 ∧
    getNalType [0, 0, 1, 7] = -1 ∧
    isSps [0, 0, 1, 7] = false ∧ isPps [0, 0, 1, 7] = false ∧
    isKeyframe [0, 0, 1, 7] = false := by
  decide

/-- Witness for C2 (amended): the five-byte unit `00 00 00 01 67` (a real
SPS header byte, `0x67 & 0x1F = 7`) is classified as SPS and nothing else. -/
theorem nal_type_classification_witness :
    (([0, 0, 0, 1, 103] : List Nat).take 4 = [0, 0, 0, 1] ∧ (4 : Nat) = 4) ∧
    ([0, 0, 0, 1, 103] : List Nat).getD 4 0 = 103 ∧
    5 ≤ ([0, 0, 0, 1, 103] : List Nat).length ∧
    (getNalType [0, 0, 0, 1, 103] = ((103 &&& 31 : Nat) : Int) ∧
      (isSps [0, 0, 0, 1, 103] = true ↔ 103 &&& 31 = 7) ∧
      (isPps [0, 0, 0, 1, 103] = true ↔ 103 &&& 31 = 8) ∧
      (isKeyframe [0, 0, 0, 1, 103] = true ↔ 103 &&& 31 = 5)) :=
  ⟨by decide, by decide, by decide,
    nal_type_classification [0, 0, 0, 1, 103] 4 103 (Or.inl ⟨by decide, rfl⟩)
      (by decide) (by decide)⟩

end ScrcpyBridge

namespace ScrcpyBridge

/-! ## Touch handling (`_send_touch`)

Normalized coordinates and times are exact rationals.  The source computes
`distance = (dx*dx + dy*dy) ** 0.5` and `velocity = distance / duration if
duration > 0 else 0`, then tests `velocity > SWIPE_VELOCITY_THRESHOLD or
(distance > SWIPE_DISTANCE_THRESHOLD and duration > SWIPE_MAX_TAP_DURATION)`.
Here the two square-root comparisons are carried out in the equivalent
squared form (`velocity > T ⇔ duration > 0 ∧ dx² + dy² > (T·duration)²`,
`distance > T ⇔ dx² + dy² > T²`); the lemma `swipe_cond_iff_sqrt` proves this
equal to the square-root formulation used in the gesture theorem.  `int()`
truncation of the nonnegative pixel products is `Int.floor`. -/

/-- Per-client touch tracking state (`TouchState` in the source). -/
structure TouchState where
  startPos : Option (ℚ × ℚ)
  startTime : ℚ
deriving DecidableEq

/-- Device command issued by `_send_touch`: `input tap x y` or
`input swipe x1 y1 x2 y2 duration_ms`. -/
inductive TouchCmd
  | tap (x y : ℤ)
  | swipe (x1 y1 x2 y2 : ℤ) (durationMs : ℕ)
deriving DecidableEq

/-- `SWIPE_DISTANCE_THRESHOLD = 0.03`. -/
def SWIPE_DISTANCE_THRESHOLD : ℚ := 3 / 100

/-- `SWIPE_VELOCITY_THRESHOLD = 0.3`. -/
def SWIPE_VELOCITY_THRESHOLD : ℚ := 3 / 10

/-- `SWIPE_MAX_TAP_DURATION = 0.4`. -/
def SWIPE_MAX_TAP_DURATION : ℚ := 2 / 5

/-- `TOUCH_TIMEOUT = 5.0`. -/
def TOUCH_TIMEOUT : ℚ := 5

/-- `_send_touch` for one viewer: coordinate validation, stale-state
eviction, then the `down` / `move` / `up` branches; on `up` with a recorded
start, tap-vs-swipe classification.  `physW × physH` is the cached physical
screen size and `now` the current time in seconds. -/
def sendTouch (physW physH : ℕ) (st : TouchState) (action : String)
    (x y now : ℚ) : TouchState × Option TouchCmd :=
  if ¬ (0 ≤ x ∧ x ≤ 1 ∧ 0 ≤ y ∧ y ≤ 1) then (st, none)
  else if st.startPos.isSome ∧ now - st.startTime > TOUCH_TIMEOUT then
    ({ st with startPos := none }, none)
  else if action = "down" then ({ startPos := some (x, y), startTime := now }, none)
  else if action = "move" then (st, none)
  else if action = "up" then
    match st.startPos with
    | none => (st, none)
    | some (sx, sy) =>
      let dx := x - sx
      let dy := y - sy
      let dist2 := dx * dx + dy * dy
      let duration := now - st.startTime
      let absStartX := ⌊sx * (physW : ℚ)⌋
      let absStartY := ⌊sy * (physH : ℚ)⌋
      let absEndX := ⌊x * (physW : ℚ)⌋
      let absEndY := ⌊y * (physH : ℚ)⌋
      if (0 < duration ∧ dist2 > (SWIPE_VELOCITY_THRESHOLD * duration) ^ 2) ∨
          (dist2 > SWIPE_DISTANCE_THRESHOLD ^ 2 ∧ duration > SWIPE_MAX_TAP_DURATION) then
        ({ st with startPos := none },
          some (.swipe absStartX absStartY absEndX absEndY 200))
      else ({ st with startPos := none }, some (.tap absEndX absEndY))
  else (st, none)

theorem sendTouch_up_eq (physW physH : ℕ) (sx sy t0 x y now : ℚ)
    (hvalid : 0 ≤ x ∧ x ≤ 1 ∧ 0 ≤ y ∧ y ≤ 1)
    (hfresh : ¬ (now - t0 > TOUCH_TIMEOUT)) :
    sendTouch physW physH ⟨some (sx, sy), t0⟩ "up" x y now =
      if (0 < now - t0 ∧ (x - sx) * (x - sx) + (y - sy) * (y - sy) >
            (SWIPE_VELOCITY_THRESHOLD * (now - t0)) ^ 2) ∨
          ((x - sx) * (x - sx) + (y - sy) * (y - sy) > SWIPE_DISTANCE_THRESHOLD ^ 2 ∧
            now - t0 > SWIPE_MAX_TAP_DURATION) then
        ({ startPos := none, startTime := t0 },
          some (TouchCmd.swipe ⌊sx * (physW : ℚ)⌋ ⌊sy * (physH : ℚ)⌋
            ⌊x * (physW : ℚ)⌋ ⌊y * (physH : ℚ)⌋ 200))
      else
        ({ startPos := none, startTime := t0 },
          some (TouchCmd.tap ⌊x * (physW : ℚ)⌋ ⌊y * (physH : ℚ)⌋)) := by
  unfold sendTouch
  rw [if_neg (not_not_intro hvalid)]
  rw [if_neg (fun hc => hfresh hc.2)]
  rw [if_neg (by decide : ¬ ("up" : String) = "down")]
  rw [if_neg (by decide : ¬ ("up" : String) = "move")]
  rw [if_pos rfl]

end ScrcpyBridge


namespace ScrcpyBridge

/-- The squared-form swipe test computed by `sendTouch` is exactly the
source's square-root formulation: `velocity = sqrt(dx²+dy²)/duration > 0.3`,
or `sqrt(dx²+dy²) > 0.03` and `duration > 0.4`. -/
theorem swipe_cond_iff_sqrt (dx dy dur : ℚ) (hdur : 0 < dur) :
    ((0 < dur ∧ dx * dx + dy * dy > (SWIPE_VELOCITY_THRESHOLD * dur) ^ 2) ∨
      (dx * dx + dy * dy > SWIPE_DISTANCE_THRESHOLD ^ 2 ∧ dur > SWIPE_MAX_TAP_DURATION)) ↔
    ((Real.sqrt (((dx * dx + dy * dy : ℚ) : ℝ)) / ((dur : ℚ) : ℝ) > 3 / 10) ∨
      (Real.sqrt (((dx * dx + dy * dy : ℚ) : ℝ)) > 3 / 100 ∧ ((dur : ℚ) : ℝ) > 2 / 5)) := by
  have hdurR : (0 : ℝ) < ((dur : ℚ) : ℝ) := by exact_mod_cast hdur
  have h0vel : (0 : ℚ) ≤ SWIPE_VELOCITY_THRESHOLD * dur :=
    mul_nonneg (by norm_num [SWIPE_VELOCITY_THRESHOLD]) hdur.le
  have hvel : (dx * dx + dy * dy > (SWIPE_VELOCITY_THRESHOLD * dur) ^ 2) ↔
      (Real.sqrt (((dx * dx + dy * dy : ℚ) : ℝ)) / ((dur : ℚ) : ℝ) > 3 / 10) := by
    rw [gt_iff_lt, gt_iff_lt, lt_div_iff₀ hdurR]
    rw [show (3 : ℝ) / 10 * ((dur : ℚ) : ℝ) = ((SWIPE_VELOCITY_THRESHOLD * dur : ℚ) : ℝ) by
      unfold SWIPE_VELOCITY_THRESHOLD; push_cast; ring]
    rw [Real.lt_sqrt (by exact_mod_cast h0vel)]
    constructor
    · intro h; exact_mod_cast h
    · intro h; exact_mod_cast h
  have hdist : (dx * dx + dy * dy > SWIPE_DISTANCE_THRESHOLD ^ 2) ↔
      (Real.sqrt (((dx * dx + dy * dy : ℚ) : ℝ)) > 3 / 100) := by
    rw [gt_iff_lt, gt_iff_lt]
    rw [show (3 : ℝ) / 100 = ((SWIPE_DISTANCE_THRESHOLD : ℚ) : ℝ) by
      unfold SWIPE_DISTANCE_THRESHOLD; push_cast; ring]
    rw [Real.lt_sqrt (by exact_mod_cast (by norm_num [SWIPE_DISTANCE_THRESHOLD] :
      (0 : ℚ) ≤ SWIPE_DISTANCE_THRESHOLD))]
    constructor
    · intro h; exact_mod_cast h
    · intro h; exact_mod_cast h
  have hdur2 : (dur > SWIPE_MAX_TAP_DURATION) ↔ (((dur : ℚ) : ℝ) > 2 / 5) := by
    rw [gt_iff_lt, gt_iff_lt]
    rw [show (2 : ℝ) / 5 = ((SWIPE_MAX_TAP_DURATION : ℚ) : ℝ) by
      unfold SWIPE_MAX_TAP_DURATION; push_cast; ring]
    exact ⟨fun h => by exact_mod_cast h, fun h => by exact_mod_cast h⟩
  rw [and_iff_right hdur, hvel, hdist, hdur2]

/-- C3: for a resolved pointer-down/pointer-up pair with positive duration
(the up arriving within the 5 s stale timeout) and valid coordinates, the
handler clears the recorded state and emits exactly one command: a swipe
command from the down-position to the up-position over the fixed 200 ms
duration if and only if velocity = distance/duration exceeds the velocity
threshold 0.3, or distance exceeds the distance threshold 0.03 and duration
exceeds the tap-duration threshold 0.4 s — distance being the Euclidean
`sqrt(dx² + dy²)` — and otherwise a tap command at the up-position. -/
theorem gesture_tap_swipe_classification (physW physH : ℕ) (sx sy t0 x y now : ℚ)
    (hx0 : 0 ≤ x) (hx1 : x ≤ 1) (hy0 : 0 ≤ y) (hy1 : y ≤ 1)
    (hfresh : ¬ (now - t0 > TOUCH_TIMEOUT))
    (hdur : 0 < now - t0) :
    ((Real.sqrt ((((x - sx) * (x - sx) + (y - sy) * (y - sy) : ℚ)) : ℝ) /
          ((now - t0 : ℚ) : ℝ) > 3 / 10 ∨
        (Real.sqrt ((((x - sx) * (x - sx) + (y - sy) * (y - sy) : ℚ)) : ℝ) > 3 / 100 ∧
          ((now - t0 : ℚ) : ℝ) > 2 / 5)) →
      sendTouch physW physH ⟨some (sx, sy), t0⟩ "up" x y now =
        ({ startPos := none, startTime := t0 },
          some (TouchCmd.swipe ⌊sx * (physW : ℚ)⌋ ⌊sy * (physH : ℚ)⌋
            ⌊x * (physW : ℚ)⌋ ⌊y * (physH : ℚ)⌋ 200))) ∧
    (¬ (Real.sqrt ((((x - sx) * (x - sx) + (y - sy) * (y - sy) : ℚ)) : ℝ) /
          ((now - t0 : ℚ) : ℝ) > 3 / 10 ∨
        (Real.sqrt ((((x - sx) * (x - sx) + (y - sy) * (y - sy) : ℚ)) : ℝ) > 3 / 100 ∧
          ((now - t0 : ℚ) : ℝ) > 2 / 5)) →
      sendTouch physW physH ⟨some (sx, sy), t0⟩ "up" x y now =
        ({ startPos := none, startTime := t0 },
          some (TouchCmd.tap ⌊x * (physW : ℚ)⌋ ⌊y * (physH : ℚ)⌋))) := by
  have heq := sendTouch_up_eq physW physH sx sy t0 x y now ⟨hx0, hx1, hy0, hy1⟩ hfresh
  have hbridge := swipe_cond_iff_sqrt (x - sx) (y - sy) (now - t0) hdur
  constructor
  · intro hsw
    rw [heq, if_pos (hbridge.mpr hsw)]
  · intro hsw
    rw [heq, if_neg (fun hq => hsw (hbridge.mp hq))]

end ScrcpyBridge

namespace ScrcpyBridge

/-- Witness for C3: releasing at (1, 0) one second after pressing at (0, 0)
is a swipe (velocity 1 > 0.3); the theorem applies with every hypothesis
discharged at this concrete input. -/
theorem gesture_tap_swipe_classification_witness :
    ((0 : ℚ) ≤ 1 ∧ (1 : ℚ) ≤ 1 ∧ (0 : ℚ) ≤ 0 ∧ (0 : ℚ) ≤ 1 ∧
      ¬ ((1 : ℚ) - 0 > TOUCH_TIMEOUT) ∧ (0 : ℚ) < 1 - 0) ∧
    (((Real.sqrt (((((1 : ℚ) - 0) * ((1 : ℚ) - 0) + ((0 : ℚ) - 0) * ((0 : ℚ) - 0) : ℚ)) : ℝ) /
          (((1 : ℚ) - 0 : ℚ) : ℝ) > 3 / 10 ∨
        (Real.sqrt (((((1 : ℚ) - 0) * ((1 : ℚ) - 0) + ((0 : ℚ) - 0) * ((0 : ℚ) - 0) : ℚ)) : ℝ) >
            3 / 100 ∧
          (((1 : ℚ) - 0 : ℚ) : ℝ) > 2 / 5)) →
      sendTouch 100 100 ⟨some (0, 0), 0⟩ "up" 1 0 1 =
        ({ startPos := none, startTime := 0 },
          some (TouchCmd.swipe ⌊(0 : ℚ) * ((100 : ℕ) : ℚ)⌋ ⌊(0 : ℚ) * ((100 : ℕ) : ℚ)⌋
            ⌊(1 : ℚ) * ((100 : ℕ) : ℚ)⌋ ⌊(0 : ℚ) * ((100 : ℕ) : ℚ)⌋ 200))) ∧
    (¬ (Real.sqrt (((((1 : ℚ) - 0) * ((1 : ℚ) - 0) + ((0 : ℚ) - 0) * ((0 : ℚ) - 0) : ℚ)) : ℝ) /
          (((1 : ℚ) - 0 : ℚ) : ℝ) > 3 / 10 ∨
        (Real.sqrt (((((1 : ℚ) - 0) * ((1 : ℚ) - 0) + ((0 : ℚ) - 0) * ((0 : ℚ) - 0) : ℚ)) : ℝ) >
            3 / 100 ∧
          (((1 : ℚ) - 0 : ℚ) : ℝ) > 2 / 5)) →
      sendTouch 100 100 ⟨some (0, 0), 0⟩ "up" 1 0 1 =
        ({ startPos := none, startTime := 0 },
          some (TouchCmd.tap ⌊(1 : ℚ) * ((100 : ℕ) : ℚ)⌋ ⌊(0 : ℚ) * ((100 : ℕ) : ℚ)⌋)))) :=
  ⟨⟨by norm_num, by norm_num, by norm_num, by norm_num,
      by norm_num [TOUCH_TIMEOUT], by norm_num⟩,
    gesture_tap_swipe_classification 100 100 0 0 0 1 0 1
      (by norm_num) (by norm_num) (by norm_num) (by norm_num)
      (by norm_num [TOUCH_TIMEOUT]) (by norm_num)⟩

/-- C4 counterexample: pointer-down at (0.5, 0.5), pointer-up at (0.52, 0.5)
after 0.05 s emits a SWIPE command, not a tap — the velocity 0.02/0.05 = 0.4
exceeds the 0.3 velocity threshold, so the spec example's expected tap never
happens. -/
theorem quick_flick_tap_claim_counterexample :
    (sendTouch 1080 2340 ⟨some (1/2, 1/2), 0⟩ "up" (13/25) (1/2) (1/20)).2 =
      some (TouchCmd.swipe 540 1170 561 1170 200) ∧
    ∀ a b : ℤ,
      (sendTouch 1080 2340 ⟨some (1/2, 1/2), 0⟩ "up" (13/25) (1/2) (1/20)).2 ≠
        some (TouchCmd.tap a b) := by
  have heq := sendTouch_up_eq 1080 2340 (1/2) (1/2) 0 (13/25) (1/2) (1/20)
    (by norm_num) (by norm_num [TOUCH_TIMEOUT])
  rw [heq]
  norm_num [SWIPE_VELOCITY_THRESHOLD, SWIPE_DISTANCE_THRESHOLD, SWIPE_MAX_TAP_DURATION]
  intro a b
  simp

/-- C4 (amended): pointer-down at (0.5, 0.5) followed by pointer-up at
(0.52, 0.5) after 0.05 s is classified as a swipe, not a tap: its velocity
0.02 / 0.05 = 0.4 exceeds the velocity threshold 0.3, even though the
distance 0.02 is below the 0.03 distance threshold and the duration 0.05 s
is below the 0.4 s tap-duration threshold.  A swipe command from the
down-position to the up-position over 200 ms is emitted. -/
theorem quick_flick_is_swipe :
    sendTouch 1080 2340 ⟨some (1/2, 1/2), 0⟩ "up" (13/25) (1/2) (1/20) =
      ({ startPos := none, startTime := 0 },
        some (TouchCmd.swipe 540 1170 561 1170 200)) ∧
    Real.sqrt (((((13 : ℚ)/25 - 1/2) * ((13 : ℚ)/25 - 1/2) +
          ((1 : ℚ)/2 - 1/2) * ((1 : ℚ)/2 - 1/2) : ℚ)) : ℝ) /
        (((1 : ℚ)/20 - 0 : ℚ) : ℝ) = 2/5 ∧
    (3/10 : ℝ) < 2/5 ∧
    ¬ (((13 : ℚ)/25 - 1/2) * ((13 : ℚ)/25 - 1/2) +
        ((1 : ℚ)/2 - 1/2) * ((1 : ℚ)/2 - 1/2) > SWIPE_DISTANCE_THRESHOLD ^ 2) ∧
    ¬ ((1 : ℚ)/20 - 0 > SWIPE_MAX_TAP_DURATION) := by
  have heq := sendTouch_up_eq 1080 2340 (1/2) (1/2) 0 (13/25) (1/2) (1/20)
    (by norm_num) (by norm_num [TOUCH_TIMEOUT])
  have hsqrt : Real.sqrt (((((13 : ℚ)/25 - 1/2) * ((13 : ℚ)/25 - 1/2) +
        ((1 : ℚ)/2 - 1/2) * ((1 : ℚ)/2 - 1/2) : ℚ)) : ℝ) = 1/50 := by
    rw [show (((((13 : ℚ)/25 - 1/2) * ((13 : ℚ)/25 - 1/2) +
        ((1 : ℚ)/2 - 1/2) * ((1 : ℚ)/2 - 1/2) : ℚ)) : ℝ) = ((1 : ℝ)/50) ^ 2 by
      push_cast; norm_num]
    exact Real.sqrt_sq (by norm_num)
  refine ⟨?_, ?_, by norm_num, by norm_num [SWIPE_DISTANCE_THRESHOLD],
    by norm_num [SWIPE_MAX_TAP_DURATION]⟩
  · rw [heq]
    norm_num [SWIPE_VELOCITY_THRESHOLD, SWIPE_DISTANCE_THRESHOLD, SWIPE_MAX_TAP_DURATION]
  · rw [hsqrt]
    norm_num

/-- C6 (amended): when a pointer event — including a pointer-down — arrives
for a viewer whose recorded pointer-down is older than the 5 s timeout, the
stale state is discarded and no command is emitted, but the triggering event
itself is dropped: an arriving pointer-down is NOT recorded in place of the
stale one (the handler returns immediately after clearing).  The position
and time are recorded only when a pointer-down arrives against the cleared
state. -/
theorem stale_touch_discard (physW physH : ℕ) (q : ℚ × ℚ) (t0 x y now now2 : ℚ)
    (a : String)
    (hvalid : 0 ≤ x ∧ x ≤ 1 ∧ 0 ≤ y ∧ y ≤ 1)
    (hstale : now - t0 > TOUCH_TIMEOUT) :
    sendTouch physW physH ⟨some q, t0⟩ a x y now =
      ({ startPos := none, startTime := t0 }, none) ∧
    sendTouch physW physH ⟨none, t0⟩ "down" x y now2 =
      ({ startPos := some (x, y), startTime := now2 }, none) := by
  constructor
  · unfold sendTouch
    rw [if_neg (not_not_intro hvalid), if_pos ⟨rfl, hstale⟩]
  · unfold sendTouch
    rw [if_neg (not_not_intro hvalid)]
    rw [if_neg (fun hc => by simp at hc)]
    rw [if_pos rfl]

/-- C6 counterexample: a pointer-down at (0.5, 0.5) at t = 6 s arriving while
a stale pointer-down recorded at t = 0 is still present clears the stale
state but does NOT record the new pointer-down — contradicting the claim
that the new pointer-down's position and time are recorded in its place. -/
theorem stale_down_not_recorded_counterexample :
    sendTouch 1080 2340 ⟨some (1/10, 1/10), 0⟩ "down" (1/2) (1/2) 6 =
      ({ startPos := none, startTime := 0 }, none) ∧
    (sendTouch 1080 2340 ⟨some (1/10, 1/10), 0⟩ "down" (1/2) (1/2) 6).1.startPos ≠
      some (1/2, 1/2) := by
  have h : sendTouch 1080 2340 ⟨some (1/10, 1/10), 0⟩ "down" (1/2) (1/2) 6 =
      ({ startPos := none, startTime := 0 }, none) := by
    unfold sendTouch
    rw [if_neg (not_not_intro (by norm_num)), if_pos ⟨rfl, by norm_num [TOUCH_TIMEOUT]⟩]
  exact ⟨h, by rw [h]; simp⟩

/-- Witness for C6 (amended): with a pointer-down recorded at t = 0, a
pointer-down at t = 6 clears the state without a command, and a pointer-down
against the cleared state is recorded. -/
theorem stale_touch_discard_witness :
    ((0 : ℚ) ≤ 1 ∧ (1 : ℚ) ≤ 1 ∧ (0 : ℚ) ≤ 0 ∧ (0 : ℚ) ≤ 1) ∧
    ((6 : ℚ) - 0 > TOUCH_TIMEOUT) ∧
    (sendTouch 1080 2340 ⟨some (0, 0), 0⟩ "down" 1 0 6 =
        ({ startPos := none, startTime := 0 }, none) ∧
      sendTouch 1080 2340 ⟨none, 0⟩ "down" 1 0 7 =
        ({ startPos := some (1, 0), startTime := 7 }, none)) :=
  ⟨⟨by norm_num, by norm_num, by norm_num, by norm_num⟩,
    by norm_num [TOUCH_TIMEOUT],
    stale_touch_discard 1080 2340 (0, 0) 0 1 0 6 7 "down"
      ⟨by norm_num, by norm_num, by norm_num, by norm_num⟩
      (by norm_num [TOUCH_TIMEOUT])⟩

/-- C10: a touch message whose x or y coordinate lies outside [0, 1] is
logged and ignored for every action: no device command is issued and the
viewer's recorded pointer state is left unchanged. -/
theorem invalid_coordinates_ignored (physW physH : ℕ) (st : TouchState)
    (a : String) (x y now : ℚ)
    (h : ¬ (0 ≤ x ∧ x ≤ 1 ∧ 0 ≤ y ∧ y ≤ 1)) :
    sendTouch physW physH st a x y now = (st, none) := by
  unfold sendTouch
  rw [if_pos h]

/-- Witness for C10: a pointer-down at x = 1.5 is ignored and the recorded
state survives untouched. -/
theorem invalid_coordinates_ignored_witness :
    (¬ ((0 : ℚ) ≤ 3/2 ∧ (3/2 : ℚ) ≤ 1 ∧ (0 : ℚ) ≤ 1/2 ∧ (1/2 : ℚ) ≤ 1)) ∧
    sendTouch 1080 2340 ⟨some (1/4, 1/4), 0⟩ "down" (3/2) (1/2) 1 =
      (⟨some (1/4, 1/4), 0⟩, none) :=
  ⟨by norm_num,
    invalid_coordinates_ignored 1080 2340 ⟨some (1/4, 1/4), 0⟩ "down" (3/2) (1/2) 1
      (by norm_num)⟩

end ScrcpyBridge

namespace ScrcpyBridge

/-! ## Broadcast hub
(`_handle_client` join replay and `_video_stream_loop` fan-out)

The hub is modelled as a state (caches, admitted client set, per-client
connection health, per-client gesture-state presence, per-client send log)
evolved by three events: a viewer joining (`_handle_client` preamble: send
device-info, cached SPS, cached PPS, cached keyframe — modelled atomically —
then membership in `self.clients`), a parsed unit arriving
(`_video_stream_loop`: update the caches, then `asyncio.gather` a send to
every member with `return_exceptions=True`, a failed send being logged and
otherwise ignored), and a client handler terminating (`_handle_client`'s
`finally`: `self.clients.discard(websocket)` and
`self._touch_states.pop(websocket, None)`).  A send to a `broken` client
fails and delivers nothing; the fan-out itself never alters membership. -/

abbrev ClientId := Nat

/-- A message on a viewer's connection: the device-info JSON or one binary
video unit. -/
inductive WsMsg
  | deviceInfo
  | binary (data : List Nat)
deriving DecidableEq

/-- Hub state: cached parameter sets and keyframe, admitted clients, broken
connections, per-client gesture-state presence, and per-client send logs. -/
structure HubState where
  sps : Option (List Nat)
  pps : Option (List Nat)
  lastKeyframe : Option (List Nat)
  clients : List ClientId
  broken : ClientId → Bool
  touch : ClientId → Bool
  sent : ClientId → List WsMsg

inductive HubEvent
  | join (c : ClientId)
  | unit (data : List Nat)
  | closeClient (c : ClientId)
deriving DecidableEq

/-- Catch-up replay sent to a joining viewer: device-info, then cached SPS,
PPS and last keyframe, each only if present. -/
def joinMsgs (s : HubState) : List WsMsg :=
  [WsMsg.deviceInfo] ++
    (match s.sps with | some u => [WsMsg.binary u] | none => []) ++
    (match s.pps with | some u => [WsMsg.binary u] | none => []) ++
    (match s.lastKeyframe with | some u => [WsMsg.binary u] | none => [])

/-- Cache update performed for each parsed unit before the broadcast. -/
def applyCaches (s : HubState) (u : List Nat) : HubState :=
  { s with
    sps := if isSps u then some u else s.sps,
    pps := if isPps u then some u else s.pps,
    lastKeyframe := if isKeyframe u then some u else s.lastKeyframe }

def hubStep (s : HubState) : HubEvent → HubState
  | .join c =>
    { s with
      clients := s.clients.insert c,
      sent := fun c' => if c' = c then s.sent c' ++ joinMsgs s else s.sent c' }
  | .unit u =>
    let s1 := applyCaches s u
    { s1 with
      sent := fun c =>
        if c ∈ s1.clients ∧ s1.broken c = false then s1.sent c ++ [WsMsg.binary u]
        else s1.sent c }
  | .closeClient c =>
    { s with
      clients := s.clients.erase c,
      touch := fun c' => if c' = c then false else s.touch c' }

def hubRun (s : HubState) (evs : List HubEvent) : HubState :=
  evs.foldl hubStep s

/-- Bridge state at startup: empty caches, no clients. -/
def hubInit : HubState :=
  ⟨none, none, none, [], fun _ => false, fun _ => false, fun _ => []⟩

/-- Sent-log accumulation for an admitted, healthy viewer: any event
sequence that never re-joins or closes `c` appends to `c`'s log exactly the
binary payload of every unit event. -/
theorem hubRun_sent_member (c : ClientId) : ∀ (evs : List HubEvent) (t : HubState),
    c ∈ t.clients → t.broken c = false →
    (∀ e ∈ evs, e ≠ HubEvent.join c ∧ e ≠ HubEvent.closeClient c) →
    (hubRun t evs).sent c =
      t.sent c ++ evs.filterMap (fun e => match e with
        | HubEvent.unit u => some (WsMsg.binary u)
        | _ => none) := by
  intro evs
  induction evs with
  | nil => intro t _ _ _; simp [hubRun]
  | cons e evs ih =>
    intro t hc hb hno
    have hnoe := hno e (List.mem_cons_self ..)
    have hnotail : ∀ e' ∈ evs, e' ≠ HubEvent.join c ∧ e' ≠ HubEvent.closeClient c :=
      fun e' he' => hno e' (List.mem_cons_of_mem _ he')
    cases e with
    | join c' =>
      have hne : c ≠ c' := fun h => hnoe.1 (by rw [h])
      show (hubRun (hubStep t (HubEvent.join c')) evs).sent c = _
      rw [ih (hubStep t (HubEvent.join c'))
        (by show c ∈ t.clients.insert c'; simp [List.mem_insert_iff, hc])
        (by exact hb)
        hnotail]
      show (if c = c' then t.sent c ++ joinMsgs t else t.sent c) ++ _ = _
      rw [if_neg hne]
      rfl
    | unit u =>
      show (hubRun (hubStep t (HubEvent.unit u)) evs).sent c = _
      rw [ih (hubStep t (HubEvent.unit u)) (by exact hc) (by exact hb) hnotail]
      show (if c ∈ t.clients ∧ t.broken c = false
          then t.sent c ++ [WsMsg.binary u] else t.sent c) ++ _ = _
      rw [if_pos ⟨hc, hb⟩]
      simp
    | closeClient c' =>
      have hne : c ≠ c' := fun h => hnoe.2 (by rw [h])
      show (hubRun (hubStep t (HubEvent.closeClient c')) evs).sent c = _
      rw [ih (hubStep t (HubEvent.closeClient c'))
        (by show c ∈ t.clients.erase c'; exact List.mem_erase_of_ne hne |>.mpr hc)
        (by exact hb)
        hnotail]
      rfl

/-- A broken viewer's log never grows during unit fan-outs, and unit events
leave membership, health and gesture state untouched. -/
theorem hubRun_units_broken (c : ClientId) : ∀ (us : List (List Nat)) (t : HubState),
    ((hubRun t (us.map HubEvent.unit)).clients = t.clients) ∧
    ((hubRun t (us.map HubEvent.unit)).broken = t.broken) ∧
    ((hubRun t (us.map HubEvent.unit)).touch = t.touch) ∧
    (t.broken c = true → (hubRun t (us.map HubEvent.unit)).sent c = t.sent c) := by
  intro us
  induction us with
  | nil => intro t; exact ⟨rfl, rfl, rfl, fun _ => rfl⟩
  | cons u us ih =>
    intro t
    have h := ih (hubStep t (HubEvent.unit u))
    refine ⟨h.1, h.2.1, h.2.2.1, fun hbr => ?_⟩
    show (hubRun (hubStep t (HubEvent.unit u)) (us.map HubEvent.unit)).sent c = t.sent c
    rw [h.2.2.2 (by exact hbr)]
    show (if c ∈ t.clients ∧ t.broken c = false
        then t.sent c ++ [WsMsg.binary u] else t.sent c) = t.sent c
    rw [if_neg (fun hcon => by rw [hbr] at hcon; simp at hcon)]

end ScrcpyBridge

namespace ScrcpyBridge

/-- C5 (amended): the join-replay half of the claim holds — a viewer joining
(atomically) while both parameter sets and a keyframe are cached receives,
in order, device-info, parameter-set-A, parameter-set-B, the cached
keyframe, and afterwards exactly the units parsed after its admission.  (The
universal half of the claim — that no viewer EVER receives a delta unit
before both parameter sets and a keyframe — does not hold of the code: the
fan-out sends every parsed unit to every admitted viewer with no per-viewer
gating, so a viewer admitted before the caches are populated receives
whatever the stream yields; see the counterexample.) -/
theorem late_joiner_catchup (s : HubState) (c : ClientId) (evs : List HubEvent)
    (A B K : List Nat)
    (hA : s.sps = some A) (hB : s.pps = some B) (hK : s.lastKeyframe = some K)
    (hfresh : s.sent c = []) (hopen : s.broken c = false)
    (hnoj : ∀ e ∈ evs, e ≠ HubEvent.join c ∧ e ≠ HubEvent.closeClient c) :
    (hubRun (hubStep s (HubEvent.join c)) evs).sent c =
      [WsMsg.deviceInfo, WsMsg.binary A, WsMsg.binary B, WsMsg.binary K] ++
        evs.filterMap (fun e => match e with
          | HubEvent.unit u => some (WsMsg.binary u)
          | _ => none) := by
  have hstep := hubRun_sent_member c evs (hubStep s (HubEvent.join c))
    (by show c ∈ s.clients.insert c; simp [List.mem_insert_iff])
    (by exact hopen)
    hnoj
  rw [hstep]
  show (if c = c then s.sent c ++ joinMsgs s else s.sent c) ++ _ = _
  rw [if_pos rfl, hfresh]
  unfold joinMsgs
  rw [hA, hB, hK]
  rfl

/-- C5 counterexample: a viewer joining at startup — before any unit has
been parsed, so with all caches empty — receives a delta unit (type 1,
neither parameter set nor keyframe) as its very next message, having
received neither parameter-set unit nor any keyframe: the fan-out has no
per-viewer gating. -/
theorem delta_before_parameter_sets_counterexample :
    ((hubRun hubInit [HubEvent.join 0, HubEvent.unit [0, 0, 0, 1, 65]]).sent 0 =
      [WsMsg.deviceInfo, WsMsg.binary [0, 0, 0, 1, 65]]) ∧
    isSps [0, 0, 0, 1, 65] = false ∧
    isPps [0, 0, 0, 1, 65] = false ∧
    isKeyframe [0, 0, 0, 1, 65] = false ∧
    getNalType [0, 0, 0, 1, 65] = 1 := by
  decide

/-- Witness for C5 (amended): with SPS `…67`, PPS `…68` and keyframe `…65`
cached, a fresh viewer joining and then one delta unit arriving produces the
log device-info, SPS, PPS, keyframe, delta. -/
theorem late_joiner_catchup_witness :
    ((⟨some [0, 0, 0, 1, 103], some [0, 0, 0, 1, 104], some [0, 0, 0, 1, 101],
        [], fun _ => false, fun _ => false, fun _ => []⟩ : HubState).sps =
      some [0, 0, 0, 1, 103]) ∧
    ((⟨some [0, 0, 0, 1, 103], some [0, 0, 0, 1, 104], some [0, 0, 0, 1, 101],
        [], fun _ => false, fun _ => false, fun _ => []⟩ : HubState).sent 0 = []) ∧
    (∀ e ∈ [HubEvent.unit [0, 0, 0, 1, 65]],
      e ≠ HubEvent.join 0 ∧ e ≠ HubEvent.closeClient 0) ∧
    (hubRun (hubStep
        (⟨some [0, 0, 0, 1, 103], some [0, 0, 0, 1, 104], some [0, 0, 0, 1, 101],
          [], fun _ => false, fun _ => false, fun _ => []⟩ : HubState)
        (HubEvent.join 0)) [HubEvent.unit [0, 0, 0, 1, 65]]).sent 0 =
      [WsMsg.deviceInfo, WsMsg.binary [0, 0, 0, 1, 103],
        WsMsg.binary [0, 0, 0, 1, 104], WsMsg.binary [0, 0, 0, 1, 101]] ++
        ([HubEvent.unit [0, 0, 0, 1, 65]].filterMap (fun e => match e with
          | HubEvent.unit u => some (WsMsg.binary u)
          | _ => none)) :=
  ⟨rfl, rfl, by decide,
    late_joiner_catchup _ 0 [HubEvent.unit [0, 0, 0, 1, 65]]
      [0, 0, 0, 1, 103] [0, 0, 0, 1, 104] [0, 0, 0, 1, 101]
      rfl rfl rfl rfl rfl (by decide)⟩

theorem filterMap_unit_map (us : List (List Nat)) :
    (us.map HubEvent.unit).filterMap (fun e => match e with
      | HubEvent.unit u => some (WsMsg.binary u)
      | _ => none) = us.map WsMsg.binary := by
  induction us with
  | nil => rfl
  | cons u us ih => simp [ih]

/-- C8 (amended): a failed send during fan-out is logged and ignored by the
video loop — the failed viewer is NOT removed by the fan-out itself (see the
counterexample) — while the same unit and all subsequent units are delivered
to every other admitted viewer unaffected; the failed viewer's membership
and gesture state are released when its connection handler terminates
(`_handle_client`'s `finally` always runs `clients.discard` and
`_touch_states.pop`), which the closed connection underlying the send
failure triggers. -/
theorem send_failure_isolation (s : HubState) (c v : ClientId) (us : List (List Nat))
    (hc : c ∈ s.clients) (hcopen : s.broken c = false) (hv : s.broken v = true)
    (hne : c ≠ v) :
    ((hubRun s (us.map HubEvent.unit)).sent c = s.sent c ++ us.map WsMsg.binary) ∧
    ((hubRun s (us.map HubEvent.unit)).sent v = s.sent v) ∧
    ((hubRun s (us.map HubEvent.unit)).clients = s.clients) ∧
    ((hubStep s (HubEvent.closeClient v)).clients = s.clients.erase v) ∧
    ((hubStep s (HubEvent.closeClient v)).touch v = false) ∧
    (c ∈ (hubStep s (HubEvent.closeClient v)).clients) ∧
    ((hubStep s (HubEvent.closeClient v)).sent c = s.sent c) := by
  have hmember := hubRun_sent_member c (us.map HubEvent.unit) s hc hcopen
    (fun e he => by
      rcases List.mem_map.mp he with ⟨u, _, rfl⟩
      exact ⟨by simp, by simp⟩)
  have hbroken := hubRun_units_broken v us s
  refine ⟨?_, hbroken.2.2.2 hv, hbroken.1, rfl, ?_, ?_, rfl⟩
  · rw [hmember, filterMap_unit_map]
  · show (if v = v then false else s.touch v) = false
    rw [if_pos rfl]
  · show c ∈ s.clients.erase v
    exact (List.mem_erase_of_ne hne).mpr hc

/-- C8 counterexample: with viewers 0 (broken connection) and 1 (healthy)
admitted and viewer 0 holding gesture state, broadcasting one unit delivers
it to viewer 1 but leaves viewer 0 in the fan-out set with its gesture state
intact — the fan-out step does NOT remove the failed viewer; removal happens
only in the connection handler's cleanup. -/
theorem send_failure_no_removal_counterexample :
    ((hubStep (⟨none, none, none, [0, 1], fun c => c == 0, fun c => c == 0,
        fun _ => []⟩ : HubState) (HubEvent.unit [0, 0, 0, 1, 65])).clients = [0, 1]) ∧
    ((hubStep (⟨none, none, none, [0, 1], fun c => c == 0, fun c => c == 0,
        fun _ => []⟩ : HubState) (HubEvent.unit [0, 0, 0, 1, 65])).touch 0 = true) ∧
    ((hubStep (⟨none, none, none, [0, 1], fun c => c == 0, fun c => c == 0,
        fun _ => []⟩ : HubState) (HubEvent.unit [0, 0, 0, 1, 65])).sent 1 =
      [WsMsg.binary [0, 0, 0, 1, 65]]) ∧
    ((hubStep (⟨none, none, none, [0, 1], fun c => c == 0, fun c => c == 0,
        fun _ => []⟩ : HubState) (HubEvent.unit [0, 0, 0, 1, 65])).sent 0 = []) := by
  decide

/-- Witness for C8 (amended): viewer 1 receives the broadcast unit while
broken viewer 0 stays (until its close event erases it and its state). -/
theorem send_failure_isolation_witness :
    ((1 : ClientId) ∈ ([0, 1] : List ClientId)) ∧
    ((fun c => c == 0) (1 : ClientId) = false) ∧
    ((fun c => c == 0) (0 : ClientId) = true) ∧
    ((1 : ClientId) ≠ 0) ∧
    (((hubRun (⟨none, none, none, [0, 1], fun c => c == 0, fun c => c == 0,
          fun _ => []⟩ : HubState) ([[0, 0, 0, 1, 65]].map HubEvent.unit)).sent 1 =
        (⟨none, none, none, [0, 1], fun c => c == 0, fun c => c == 0,
          fun _ => []⟩ : HubState).sent 1 ++ [[0, 0, 0, 1, 65]].map WsMsg.binary) ∧
      ((hubRun (⟨none, none, none, [0, 1], fun c => c == 0, fun c => c == 0,
          fun _ => []⟩ : HubState) ([[0, 0, 0, 1, 65]].map HubEvent.unit)).sent 0 =
        (⟨none, none, none, [0, 1], fun c => c == 0, fun c => c == 0,
          fun _ => []⟩ : HubState).sent 0) ∧
      ((hubRun (⟨none, none, none, [0, 1], fun c => c == 0, fun c => c == 0,
          fun _ => []⟩ : HubState) ([[0, 0, 0, 1, 65]].map HubEvent.unit)).clients =
        [0, 1]) ∧
      ((hubStep (⟨none, none, none, [0, 1], fun c => c == 0, fun c => c == 0,
          fun _ => []⟩ : HubState) (HubEvent.closeClient 0)).clients =
        ([0, 1] : List ClientId).erase 0) ∧
      ((hubStep (⟨none, none, none, [0, 1], fun c => c == 0, fun c => c == 0,
          fun _ => []⟩ : HubState) (HubEvent.closeClient 0)).touch 0 = false) ∧
      ((1 : ClientId) ∈ (hubStep (⟨none, none, none, [0, 1], fun c => c == 0,
          fun c => c == 0, fun _ => []⟩ : HubState) (HubEvent.closeClient 0)).clients) ∧
      ((hubStep (⟨none, none, none, [0, 1], fun c => c == 0, fun c => c == 0,
          fun _ => []⟩ : HubState) (HubEvent.closeClient 0)).sent 1 =
        (⟨none, none, none, [0, 1], fun c => c == 0, fun c => c == 0,
          fun _ => []⟩ : HubState).sent 1)) :=
  ⟨by decide, rfl, rfl, by decide,
    send_failure_isolation _ 1 0 [[0, 0, 0, 1, 65]] (by decide) rfl rfl (by decide)⟩

end ScrcpyBridge


namespace ScrcpyBridge

/-! ## Control-message routing (`_handle_control_message`) -/

/-- JSON values as produced by `json.loads`. -/
inductive JVal
  | jnull
  | jbool (b : Bool)
  | jnum (q : ℚ)
  | jstr (s : String)
  | jarr (xs : List JVal)
  | jobj (fields : List (String × JVal))

/-- Python exceptions relevant to the handler.  `ValueError` (bad format
conversion), `TypeError` (bad slice), and `AttributeError` (`.get` on a
non-dict) are collapsed into `otherError`; the handler's `except` clause
names only `json.JSONDecodeError` and `KeyError`. -/
inductive PyExc
  | jsonDecodeError
  | keyError
  | otherError

/-- The externally visible actions the router dispatches. -/
inductive CtrlEffect
  | touchEvent (action : JVal) (x y : ℚ)
  | keyEvent (keycode action : JVal)
  | keyPress (keycode : Nat)
  | chatTask (message : JVal)
  | cancelChat
  | newSession

/-- `dict.get(k)` / `data[k]` lookup: first binding wins, absent → `none`. -/
def jget (fields : List (String × JVal)) (k : String) : Option JVal :=
  (fields.find? (fun p => p.1 == k)).map (fun p => p.2)

/-- Values the `:.3f` format conversion accepts: numbers and bools (a
Python `bool` is an `int`); anything else raises at the format. -/
def numericQ : JVal → Option ℚ
  | .jnum q => some q
  | .jbool b => some (if b then 1 else 0)
  | _ => none

/-- Body of `_handle_control_message` once `json.loads` has produced `data`:
the `type`-discriminated dispatch.  Raises are modelled as `Except.error`:
`data.get` on a non-object document raises `AttributeError`; `data['k']` on
a missing key raises `KeyError`; the touch log line
`f"Touch: {data['action']} at ({data['x']:.3f}, {data['y']:.3f})"` evaluates
its fields left to right and raises `ValueError`/`TypeError` on a
non-numeric `x` or `y`; `user_message[:50]` raises `TypeError` when the chat
message is neither a string nor a list.  A `type` that is absent, not a
string, or matches no branch falls through all comparisons and the handler
silently returns. -/
def handleBody (data : JVal) : Except PyExc (List CtrlEffect) :=
  match data with
  | .jobj fields =>
    match jget fields "type" with
    | some (.jstr t) =>
      if t = "touch" then
        match jget fields "action" with
        | none => .error .keyError
        | some a =>
          match jget fields "x" with
          | none => .error .keyError
          | some xv =>
            match numericQ xv with
            | none => .error .otherError
            | some x =>
              match jget fields "y" with
              | none => .error .keyError
              | some yv =>
                match numericQ yv with
                | none => .error .otherError
                | some y => .ok [.touchEvent a x y]
      else if t = "key" then
        match jget fields "keycode" with
        | none => .error .keyError
        | some k =>
          match jget fields "action" with
          | none => .error .keyError
          | some a => .ok [.keyEvent k a]
      else if t = "back" then .ok [.keyPress 4]
      else if t = "home" then .ok [.keyPress 3]
      else if t = "recents" then .ok [.keyPress 187]
      else if t = "chat" then
        match (jget fields "message").getD (.jstr "") with
        | .jstr s => .ok [.chatTask (.jstr s)]
        | .jarr xs => .ok [.chatTask (.jarr xs)]
        | _ => .error .otherError
      else if t = "cancel" then .ok [.cancelChat]
      else if t = "new_session" then .ok [.newSession]
      else .ok []
    | _ => .ok []
  | _ => .error .otherError

/-- Outcome of one inbound message at the `_handle_client` message loop. -/
inductive HandlerOutcome
  | handled (effects : List CtrlEffect)
  | dropped
  | raised (e : PyExc)

/-- `_handle_control_message`: the body runs under
`try ... except (json.JSONDecodeError, KeyError)`, so exactly those two
exception classes are logged and dropped; any other exception propagates
out of the handler into the client's message loop, closing the connection.
`parsed = none` models text that `json.loads` rejects (`JSONDecodeError`,
caught). -/
def handleControlMessage (parsed : Option JVal) : HandlerOutcome :=
  match parsed with
  | none => .dropped
  | some data =>
    match handleBody data with
    | .ok effs => .handled effs
    | .error .jsonDecodeError => .dropped
    | .error .keyError => .dropped
    | .error e => .raised e

/-- C7 (amended): invalid JSON is logged and dropped; a message with an
unrecognized `type` is ignored without error; a `touch` or `key` message
missing a required field is dropped (`KeyError` is caught) — in these cases
nothing raises out of the handler and the connection stays open.  But a
message with an ILL-TYPED required field (a non-numeric touch coordinate, a
non-string/list chat message, or a non-object JSON document) raises
`ValueError`/`TypeError`/`AttributeError`, which the `except` clause does
not name: the exception escapes the handler and the connection is torn
down; see the counterexample. -/
theorem malformed_message_handling (fields : List (String × JVal)) (t : String) :
    (handleControlMessage none = .dropped) ∧
    (jget fields "type" = some (.jstr t) →
      t ∉ (["touch", "key", "back", "home", "recents", "chat", "cancel",
        "new_session"] : List String) →
      handleControlMessage (some (.jobj fields)) = .handled []) ∧
    (jget fields "type" = some (.jstr "touch") → jget fields "action" = none →
      handleControlMessage (some (.jobj fields)) = .dropped) ∧
    (jget fields "type" = some (.jstr "key") → jget fields "keycode" = none →
      handleControlMessage (some (.jobj fields)) = .dropped) := by
  refine ⟨rfl, ?_, ?_, ?_⟩
  · intro hty hnot
    simp only [List.mem_cons, not_or] at hnot
    obtain ⟨h1, h2, h3, h4, h5, h6, h7, h8, -⟩ := hnot
    unfold handleControlMessage handleBody
    simp only [hty]
    rw [if_neg h1, if_neg h2, if_neg h3, if_neg h4, if_neg h5, if_neg h6,
      if_neg h7, if_neg h8]
  · intro hty hact
    unfold handleControlMessage handleBody
    simp only [hty]
    rw [if_pos trivial, hact]
  · intro hty hkc
    unfold handleControlMessage handleBody
    simp only [hty]
    rw [if_neg (by decide), if_pos trivial, hkc]

/-- C7 counterexample: a `touch` message whose `x` field is the string
`"a"` (ill-typed, present) raises `ValueError` at the log line's `:.3f`
conversion, which the handler does not catch; likewise a valid JSON document
that is not an object (the number 42) raises `AttributeError` at
`data.get("type")`.  In both cases the exception escapes the handler and
the connection dies, contrary to the claim. -/
theorem ill_typed_field_raises_counterexample :
    handleControlMessage (some (.jobj [("type", .jstr "touch"),
      ("action", .jstr "down"), ("x", .jstr "a"), ("y", .jnum 0)])) =
      .raised .otherError ∧
    handleControlMessage (some (.jnum 42)) = .raised .otherError :=
  ⟨rfl, rfl⟩

/-- Witness for C7 (amended): invalid JSON dropped; a `touch` message with
no `action` field dropped; an unknown type `"zoom"` ignored without
error. -/
theorem malformed_message_handling_witness :
    handleControlMessage none = .dropped ∧
    handleControlMessage (some (.jobj [("type", JVal.jstr "touch")])) = .dropped ∧
    handleControlMessage (some (.jobj [("type", JVal.jstr "zoom")])) = .handled [] :=
  ⟨(malformed_message_handling [("type", JVal.jstr "touch")] "touch").1,
    (malformed_message_handling [("type", JVal.jstr "touch")] "touch").2.2.1 rfl rfl,
    (malformed_message_handling [("type", JVal.jstr "zoom")] "zoom").2.1 rfl (by decide)⟩

end ScrcpyBridge

namespace ScrcpyBridge

/-! ## Chat-turn serialization (`self._chat_lock` in `invoke_agent`)

Each chat request runs `invoke_agent`, whose whole body executes under
`with self._chat_lock:` — a process-wide `threading.Lock`.  The lock
protocol is modelled as a transition system over request phases: a pending
request can start running only by acquiring the free lock, and the lock is
released when its holder finishes.  `threading.Lock.acquire()` blocks, so a
pending request has no other transition: it waits, it is never rejected. -/

inductive ChatPhase
  | pending
  | running
  | finished
deriving DecidableEq

/-- Chat-turn system state: the current holder of `_chat_lock` (if any) and
each request's phase. -/
structure ChatSys where
  lockHolder : Option Nat
  phase : Nat → ChatPhase

/-- Transitions of the `with self._chat_lock:` block. -/
inductive ChatStep : ChatSys → ChatSys → Prop
  | acquire (s : ChatSys) (r : Nat) :
      s.lockHolder = none → s.phase r = .pending →
      ChatStep s ⟨some r, fun q => if q = r then .running else s.phase q⟩
  | release (s : ChatSys) (r : Nat) :
      s.lockHolder = some r → s.phase r = .running →
      ChatStep s ⟨none, fun q => if q = r then .finished else s.phase q⟩

/-- States reachable from bridge startup (lock free, every request still
pending). -/
inductive ChatReach : ChatSys → Prop
  | init : ChatReach ⟨none, fun _ => .pending⟩
  | step {s s' : ChatSys} : ChatReach s → ChatStep s s' → ChatReach s'

theorem chat_lock_held_by_runner {s : ChatSys} (h : ChatReach s) :
    ∀ r, s.phase r = .running → s.lockHolder = some r := by
  induction h with
  | init =>
    intro r hr
    exact absurd hr (by simp)
  | step hreach hstep ih =>
    rename_i t u
    cases hstep with
    | acquire r hlock hpend =>
      intro q hq
      show some r = some q
      by_cases hqr : q = r
      · rw [hqr]
      · rw [show (⟨some r, fun q => if q = r then ChatPhase.running else t.phase q⟩ :
            ChatSys).phase q = t.phase q by simp [hqr]] at hq
        rw [ih q hq] at hlock
        exact absurd hlock (by simp)
    | release r hlock hrun =>
      intro q hq
      by_cases hqr : q = r
      · rw [show (⟨none, fun q => if q = r then ChatPhase.finished else t.phase q⟩ :
            ChatSys).phase q = ChatPhase.finished by simp [hqr]] at hq
        exact absurd hq (by simp)
      · rw [show (⟨none, fun q => if q = r then ChatPhase.finished else t.phase q⟩ :
            ChatSys).phase q = t.phase q by simp [hqr]] at hq
        have := ih q hq
        rw [this] at hlock
        rw [Option.some.injEq] at hlock
        exact absurd hlock hqr

/-- C9: at most one chat turn is in flight across the whole process.  In
every reachable state at most one request is running (and it holds the
lock); a request enters the running phase only by a transition from a state
whose lock is free — i.e. only after the previous holder has released — and
a pending request is never rejected: every transition leaves it pending or
starts it. -/
theorem chat_turns_mutually_exclusive :
    (∀ s : ChatSys, ChatReach s → ∀ r1 r2, s.phase r1 = .running →
      s.phase r2 = .running → r1 = r2) ∧
    (∀ s s' : ChatSys, ChatStep s s' → ∀ r, s.phase r = .pending →
      s'.phase r = .running → s.lockHolder = none) ∧
    (∀ s s' : ChatSys, ChatStep s s' → ∀ r, s.phase r = .pending →
      s'.phase r = .pending ∨ s'.phase r = .running) := by
  refine ⟨?_, ?_, ?_⟩
  · intro s hreach r1 r2 h1 h2
    have e1 := chat_lock_held_by_runner hreach r1 h1
    have e2 := chat_lock_held_by_runner hreach r2 h2
    rw [e1, Option.some.injEq] at e2
    exact e2
  · intro s s' hstep r hpend hrun
    cases hstep with
    | acquire q hlock _ => exact hlock
    | release q hlock hq =>
      by_cases hrq : r = q
      · rw [hrq] at hpend
        rw [hpend] at hq
        exact absurd hq (by simp)
      · rw [show (⟨none, fun p => if p = q then ChatPhase.finished else s.phase p⟩ :
            ChatSys).phase r = s.phase r by simp [hrq]] at hrun
        rw [hpend] at hrun
        exact absurd hrun (by simp)
  · intro s s' hstep r hpend
    cases hstep with
    | acquire q hlock hq =>
      by_cases hrq : r = q
      · right
        simp [hrq]
      · left
        show (if r = q then ChatPhase.running else s.phase r) = ChatPhase.pending
        rw [if_neg hrq]
        exact hpend
    | release q hlock hq =>
      by_cases hrq : r = q
      · rw [hrq] at hpend
        rw [hpend] at hq
        exact absurd hq (by simp)
      · left
        show (if r = q then ChatPhase.finished else s.phase r) = ChatPhase.pending
        rw [if_neg hrq]
        exact hpend

/-- Witness for C9: from the initial state, request 0 acquires the lock and
runs; mutual exclusion applied at that reachable state gives 0 = 0. -/
theorem chat_turns_mutually_exclusive_witness :
    ChatReach ⟨some 0, fun q => if q = 0 then ChatPhase.running
      else (⟨none, fun _ => ChatPhase.pending⟩ : ChatSys).phase q⟩ ∧
    ((⟨some 0, fun q => if q = 0 then ChatPhase.running
      else (⟨none, fun _ => ChatPhase.pending⟩ : ChatSys).phase q⟩ : ChatSys).phase 0 =
      ChatPhase.running) ∧
    (0 : Nat) = 0 :=
  have hreach : ChatReach ⟨some 0, fun q => if q = 0 then ChatPhase.running
      else (⟨none, fun _ => ChatPhase.pending⟩ : ChatSys).phase q⟩ :=
    ChatReach.step ChatReach.init (ChatStep.acquire _ 0 rfl rfl)
  ⟨hreach, by simp,
    chat_turns_mutually_exclusive.1 _ hreach 0 0 (by simp) (by simp)⟩

end ScrcpyBridge
